import Mathlib

/-
Verification of the weewx setup.py upgrade-orchestration logic.

The filesystem is modelled as an association list of (path, content) pairs:
an entry (p, c) means a regular file at path p with byte content c.  A
directory d is considered to exist when some file lives at d or strictly
below d (paths are joined with the separator "/").  Reads take the first
entry with a matching path.

Python primitives are modelled as follows:
  - s.startswith(pre)        -> strStartsWith s pre
  - str(n) for a Nat n       -> decStr n (standard decimal numeral)
  - os.path.normpath(p)      -> normpath p (trailing-separator stripping,
                                the behaviour the source comment relies on)
  - os.path.join(a, b)       -> a ++ "/" ++ b (for relative b)
  - os.path.exists(p)        -> pexists fs p
  - shutil.move(src, dst)    -> moveTree fs src dst
  - distutils copy_tree      -> copyTree fs src dst
  - file writes / unlinks    -> fswrite / fsremove
Time is passed in explicitly as the strftime(".%Y%m%d%H%M%S") payload, and
fallible external I/O steps are driven by a Boolean failure oracle.
-/

/-- Boolean test that the string s starts with the string pre; model of
Python str.startswith. -/
def strStartsWith (s pre : String) : Bool :=
  pre.data.isPrefixOf s.data

/-- Character for a decimal digit. -/
def digitChar (n : Nat) : Char :=
  Char.ofNat (48 + n)

/-- Digit list of a natural number, most significant first, driven by fuel
so that reduction is structural.  Fuel n + 1 always suffices for input n. -/
def decDigitsAux : Nat → Nat → List Char
  | 0, _ => []
  | fuel + 1, n => if n < 10 then [digitChar n] else decDigitsAux fuel (n / 10) ++ [digitChar (n % 10)]

/-- Digit list of a natural number, most significant digit first. -/
def decDigits (n : Nat) : List Char :=
  decDigitsAux (n + 1) n

/-- Decimal numeral of a natural number; model of Python str(n). -/
def decStr (n : Nat) : String :=
  ⟨decDigits n⟩

/-- Value of a digit list, used to invert decDigits. -/
def digitsVal (l : List Char) : Nat :=
  l.foldl (fun a c => 10 * a + (c.toNat - 48)) 0

/-- Strip trailing separators from a path; the part of os.path.normpath
that move_with_timestamp relies on (see the source comment about a
trailing slash on the target). -/
def normpath (p : String) : String :=
  let d := (p.data.reverse.dropWhile (fun c => c == '/')).reverse
  if d.isEmpty then "/" else ⟨d⟩

/-- A filesystem: list of (path, file content) entries. -/
abbrev FS := List (String × String)

/-- Model of os.path.exists: a path exists when a file is stored at it or
strictly below it (in which case it denotes a directory). -/
def pexists (fs : FS) (p : String) : Bool :=
  fs.any (fun e => e.1 == p || strStartsWith e.1 (p ++ "/"))

/-- Read the content of the file at path p. -/
def fsread (fs : FS) (p : String) : Option String :=
  (fs.find? (fun e => e.1 == p)).map (fun e => e.2)

/-- Create or overwrite the file at path p with content c. -/
def fswrite (fs : FS) (p c : String) : FS :=
  (p, c) :: fs.filter (fun e => e.1 != p)

/-- Delete the file at path p (no-op when absent). -/
def fsremove (fs : FS) (p : String) : FS :=
  fs.filter (fun e => e.1 != p)

/-- Rename the path p when it equals src or lies below src, mapping the
subtree rooted at src onto dst; other paths are unchanged. -/
def rebasePath (src dst p : String) : String :=
  if p == src then dst
  else if strStartsWith p (src ++ "/") then dst ++ ⟨p.data.drop src.data.length⟩
  else p

/-- Model of shutil.move / os.rename of a file or directory tree. -/
def moveTree (fs : FS) (src dst : String) : FS :=
  fs.map (fun e => (rebasePath src dst e.1, e.2))

/-- Model of distutils.dir_util.copy_tree: the entries at or below src are
copied onto the corresponding paths under dst, overwriting same-named
destination files and leaving all other files alone. -/
def copyTree (fs : FS) (src dst : String) : FS :=
  let copied := (fs.filter (fun e => e.1 == src || strStartsWith e.1 (src ++ "/"))).map
    (fun e => (rebasePath src dst e.1, e.2))
  copied ++ fs.filter (fun e => copied.all (fun c => !(c.1 == e.1)))

/-- The version suffix candidate newpath + '-' + str(version) tried by the
collision loop of move_with_timestamp. -/
def vstr (base : String) (n : Nat) : String :=
  base ++ "-" ++ decStr n

/-- The while loop of move_with_timestamp: starting from version = start,
advance while the candidate path exists; fuel bounds the iteration count
and is always sufficient when it exceeds the number of filesystem
entries. -/
def searchFrom (fs : FS) (base : String) : Nat → Nat → Nat
  | 0, n => n
  | fuel + 1, n => if pexists fs (vstr base n) then searchFrom fs base fuel (n + 1) else n

/-- First version number (from 1) whose candidate path does not exist. -/
def firstFreeVersion (fs : FS) (base : String) : Nat :=
  searchFrom fs base (fs.length + 1) 1

/-- The backup path chosen by move_with_timestamp for a given filesystem,
timestamp payload and input path: path.timestamp, or path.timestamp-n for
the first free n when the former already exists. -/
def backupName (fs : FS) (ts filepath : String) : String :=
  let base := normpath filepath ++ "." ++ ts
  if pexists fs base then vstr base (firstFreeVersion fs base) else base

/-- Model of move_with_timestamp from setup.py: normalize the path, pick
the timestamped backup name (with the version-number collision loop), then
move the file or directory there.  Returns the new path and the updated
filesystem; none models the IOError raised by shutil.move when the source
path does not exist. -/
def move_with_timestamp (fs : FS) (ts filepath : String) : Option (String × FS) :=
  let np := normpath filepath
  let newpath := backupName fs ts filepath
  if pexists fs np then some (newpath, moveTree fs np newpath) else none

/-- The six skin names hard-coded in weewx_install_data.run. -/
def skin_names : List String :=
  ["Ftp", "Mobile", "Rsync", "Seasons", "Smartphone", "Standard"]

/-- One entry of the data_files manifest: an install subdirectory together
with the files that go into it. -/
structure DataFileGroup where
  dir : String
  files : List String
deriving DecidableEq

/-- Model of the data_files filtering in weewx_install_data.run: when the
destination already has a skins directory, keep only the files of the six
known skins whose directory is still missing, drop every other entry whose
path starts with "skins", and keep the rest; when the destination has no
skins directory the manifest is left untouched.  The argument ex is
os.path.exists on the pre-install filesystem. -/
def filter_data_files (ex : String → Bool) (install_dir : String)
    (data_files : List DataFileGroup) : List DataFileGroup :=
  if ex (install_dir ++ "/" ++ "skins") then
    let install_files := skin_names.foldl (fun acc skin_name =>
      if !(ex (install_dir ++ "/" ++ ("skins/" ++ skin_name))) then
        acc ++ data_files.filter (fun dat => strStartsWith dat.dir ("skins/" ++ skin_name))
      else acc) []
    let other_files := data_files.filter (fun dat => !(strStartsWith dat.dir "skins"))
    other_files ++ install_files
  else
    data_files

/-- Top-level skin group name of a manifest path, when the path lies under
the skins category.  Used only to state the spec reading of claim C1. -/
def skinGroupOf (dir : String) : Option String :=
  if strStartsWith dir "skins/" then some ⟨(dir.data.drop 6).takeWhile (fun c => c != '/')⟩
  else none

/-- Spec reading of the Selective Content Installer contract (claim C1,
stated from the spec words, for comparison against filter_data_files): an
entry under the skins category is retained exactly when the destination
does not already have a directory for its group; all other entries pass
through. -/
def claim_filter (ex : String → Bool) (install_dir : String)
    (data_files : List DataFileGroup) : List DataFileGroup :=
  data_files.filter (fun dat =>
    match skinGroupOf dat.dir with
    | some g => !(ex (install_dir ++ "/" ++ ("skins/" ++ g)))
    | none => true)

/-- The retention condition actually implemented by filter_data_files when
the destination already has a skins directory: entries outside the skins
category always pass; an entry under skins survives exactly when its path
starts with one of the six known skin prefixes whose destination directory
is still missing. -/
def keep_entry (ex : String → Bool) (install_dir : String) (d : DataFileGroup) : Prop :=
  strStartsWith d.dir "skins" = true →
    ∃ name ∈ skin_names, strStartsWith d.dir ("skins/" ++ name) = true ∧
      ex (install_dir ++ "/" ++ ("skins/" ++ name)) = false

/-- Failure oracle for the fallible external I/O steps of
update_and_install_config: the config serialization, the backup move, the
copy into place and the template unlink. -/
structure Oracle where
  writeFails : Bool
  backupFails : Bool
  copyFails : Bool
  unlinkTemplateFails : Bool
deriving DecidableEq

/-- Outcome of the install phase of update_and_install_config: whether the
function returned normally (false models a propagated exception), the
backup path chosen for a pre-existing config, the list of filesystem
states after each primitive step in order, and the final state. -/
structure RunResult where
  ok : Bool
  backupPath : Option String
  states : List FS
  final : FS
deriving DecidableEq

/-- Model of the write / backup / install / cleanup phase of
update_and_install_config (everything from tempfile.mkstemp on): create
the temporary file, serialize the merged configuration into it, and unless
this is a dry run back up a pre-existing config with move_with_timestamp,
copy the temporary file onto the install path and best-effort unlink the
template; the finally block deletes the temporary file on every path. -/
def update_and_install_lower (fs0 : FS) (tmpfn install_path template_path ts content : String)
    (dry_run : Bool) (orc : Oracle) : RunResult :=
  let fs1 := fswrite fs0 tmpfn ""
  if orc.writeFails then
    let fin := fsremove fs1 tmpfn
    ⟨false, none, [fs1, fin], fin⟩
  else
    let fs2 := fswrite fs1 tmpfn content
    if dry_run then
      let fin := fsremove fs2 tmpfn
      ⟨true, none, [fs1, fs2, fin], fin⟩
    else
      if pexists fs2 install_path then
        if orc.backupFails then
          let fin := fsremove fs2 tmpfn
          ⟨false, none, [fs1, fs2, fin], fin⟩
        else
          match move_with_timestamp fs2 ts install_path with
          | none =>
            let fin := fsremove fs2 tmpfn
            ⟨false, none, [fs1, fs2, fin], fin⟩
          | some (backup_path, fs3) =>
            if orc.copyFails then
              let fin := fsremove fs3 tmpfn
              ⟨false, some backup_path, [fs1, fs2, fs3, fin], fin⟩
            else
              let fs4 := match fsread fs3 tmpfn with
                | some c => fswrite fs3 install_path c
                | none => fs3
              let fs5 := if orc.unlinkTemplateFails then fs4 else fsremove fs4 template_path
              let fin := fsremove fs5 tmpfn
              ⟨true, some backup_path, [fs1, fs2, fs3, fs4, fs5, fin], fin⟩
      else
        if orc.copyFails then
          let fin := fsremove fs2 tmpfn
          ⟨false, none, [fs1, fs2, fin], fin⟩
        else
          let fs4 := match fsread fs2 tmpfn with
            | some c => fswrite fs2 install_path c
            | none => fs2
          let fs5 := if orc.unlinkTemplateFails then fs4 else fsremove fs4 template_path
          let fin := fsremove fs5 tmpfn
          ⟨true, none, [fs1, fs2, fs4, fs5, fin], fin⟩

/-- A configuration tree, restricted to the scalar top-level bindings that
the claims are about; insertion order is significant. -/
abbrev ConfigDict := List (String × String)

/-- Model of ConfigObj item assignment: replace the value of an existing
key in place, or append a new binding at the end. -/
def ConfigDict.set : ConfigDict → String → String → ConfigDict
  | [], k, v => [(k, v)]
  | (k', v') :: rest, k, v =>
    if k' == k then (k, v) :: rest else (k', v') :: ConfigDict.set rest k v

/-- Lookup of a top-level key. -/
def ConfigDict.get (d : ConfigDict) (k : String) : Option String :=
  (d.find? (fun e => e.1 == k)).map (fun e => e.2)

/-- The default station information of update_and_install_config, used in
no-prompt mode when no configuration file pre-exists. -/
def default_stn_info : List (String × String) :=
  [("station_type", "Simulator"), ("driver", "weewx.drivers.simulator")]

/-- Model of the configuration-building phase of update_and_install_config
(lines up to the WEEWX_ROOT assignment): when an old config exists it is
merged with the distribution template by the external weecfg merge;
otherwise the distribution template is taken and the station profile,
either the fixed default (no-prompt mode) or the interactively gathered
one, is applied by the external weecfg.modify_config.  Finally WEEWX_ROOT
is unconditionally set to the normalized install directory.  The external
weecfg collaborators are passed in as opaque functions. -/
def prepare_config (mergeFn : ConfigDict → ConfigDict → ConfigDict)
    (modifyFn : ConfigDict → List (String × String) → ConfigDict)
    (promptFn : ConfigDict → List (String × String))
    (dist_config : ConfigDict) (old_config : Option ConfigDict)
    (no_prompt : Bool) (install_dir : String) : ConfigDict :=
  let config_dict :=
    match old_config with
    | some cfg => mergeFn cfg dist_config
    | none =>
      let stn_info := if no_prompt then default_stn_info else promptFn dist_config
      modifyFn dist_config stn_info
  ConfigDict.set config_dict "WEEWX_ROOT" (normpath install_dir)

/-- The user subdirectory saved and restored by weewx_install_lib.run. -/
def userDir (install_dir : String) : String :=
  install_dir ++ "/" ++ "bin/user"

/-- The fresh files that the superclass install_lib.run places below the
user directory, given as (relative path, content) pairs. -/
def install_fresh (fs : FS) (user_dir : String) (fresh : List (String × String)) : FS :=
  fresh.foldl (fun acc e => fswrite acc (user_dir ++ "/" ++ e.1) e.2) fs

/-- The legacy-file remediation at the end of weewx_install_lib.run:
rename schemas.py to schemas.py.old and delete schemas.pyc inside the user
directory, each step silently tolerated when the file is absent. -/
def legacy_cleanup (fs : FS) (user_dir : String) : FS :=
  let sp := user_dir ++ "/" ++ "schemas.py"
  let fs1 := if pexists fs sp then moveTree fs sp (user_dir ++ "/" ++ "schemas.py.old") else fs
  fsremove fs1 (user_dir ++ "/" ++ "schemas.pyc")

/-- Model of weewx_install_lib.run: when the user subdirectory exists it
is set aside under a timestamped name by move_with_timestamp, the
superclass run installs the fresh files (including a new user
subdirectory), the saved tree is copied back over the fresh one with
copy_tree, and the legacy schema files are remediated; when no user
subdirectory exists the fresh files are simply installed. -/
def install_lib_run (fs : FS) (install_dir ts : String) (fresh : List (String × String)) : FS :=
  let user_dir := userDir install_dir
  if pexists fs user_dir then
    match move_with_timestamp fs ts user_dir with
    | some (user_savedir, fs1) =>
      let fs2 := install_fresh fs1 user_dir fresh
      let fs3 := copyTree fs2 user_savedir user_dir
      legacy_cleanup fs3 user_dir
    | none => install_fresh fs user_dir fresh
  else
    install_fresh fs user_dir fresh

/-
Foundational lemmas: decimal numerals, string prefixes, and uniqueness of
the version-suffix candidate paths.
-/

theorem strEq_of_data {s t : String} (h : s.data = t.data) : s = t := by
  cases s; cases t; cases h; rfl

theorem strStartsWith_iff {s pre : String} : strStartsWith s pre = true ↔ pre.data <+: s.data :=
  List.isPrefixOf_iff_prefix

theorem data_append_append (a b c : String) : (a ++ b ++ c).data = a.data ++ b.data ++ c.data := by
  simp [String.data_append]

theorem digitChar_toNat {k : Nat} (h : k < 10) : (digitChar k).toNat = 48 + k := by
  interval_cases k <;> decide

theorem digitsVal_append_digit (l : List Char) (c : Char) :
    digitsVal (l ++ [c]) = 10 * digitsVal l + (c.toNat - 48) := by
  simp [digitsVal, List.foldl_append]

theorem decDigitsAux_val {fuel n : Nat} (h : n < fuel) : digitsVal (decDigitsAux fuel n) = n := by
  induction fuel generalizing n with
  | zero => omega
  | succ fuel ih =>
    by_cases hn : n < 10
    · simp only [decDigitsAux, if_pos hn, digitsVal, List.foldl]
      rw [digitChar_toNat hn]
      omega
    · have hdiv : n / 10 < n := Nat.div_lt_self (by omega) (by omega)
      have hfuel : n / 10 < fuel := by omega
      simp only [decDigitsAux, if_neg hn]
      rw [digitsVal_append_digit, ih hfuel, digitChar_toNat (Nat.mod_lt n (by omega))]
      omega

theorem digitsVal_decDigits (n : Nat) : digitsVal (decDigits n) = n :=
  decDigitsAux_val (Nat.lt_succ_self n)

theorem decDigits_inj {a b : Nat} (h : decDigits a = decDigits b) : a = b := by
  have := digitsVal_decDigits a
  rw [h, digitsVal_decDigits] at this
  omega

theorem decDigitsAux_mem_range {fuel n : Nat} (h : n < fuel) :
    ∀ c ∈ decDigitsAux fuel n, 48 ≤ c.toNat ∧ c.toNat ≤ 57 := by
  induction fuel generalizing n with
  | zero => omega
  | succ fuel ih =>
    intro c hc
    by_cases hn : n < 10
    · simp only [decDigitsAux, if_pos hn, List.mem_singleton] at hc
      subst hc
      rw [digitChar_toNat hn]
      omega
    · simp only [decDigitsAux, if_neg hn, List.mem_append, List.mem_singleton] at hc
      rcases hc with hc | hc
      · have hdiv : n / 10 < n := Nat.div_lt_self (by omega) (by omega)
        exact ih (by omega) c hc
      · subst hc
        rw [digitChar_toNat (Nat.mod_lt n (by omega))]
        omega

theorem slash_not_mem_decDigits (n : Nat) : ('/' : Char) ∉ decDigits n := by
  intro h
  have h2 := decDigitsAux_mem_range (Nat.lt_succ_self n) _ h
  have h3 : ('/' : Char).toNat = 47 := rfl
  omega

theorem vstr_data (base : String) (n : Nat) :
    (vstr base n).data = base.data ++ '-' :: decDigits n := by
  simp [vstr, decStr, String.data_append]

theorem append_singleton_prefix_eq {xs ys : List Char} (h : xs ++ ['/'] <+: ys ++ ['/'])
    (hx : ('/' : Char) ∉ xs) (hy : ('/' : Char) ∉ ys) : xs = ys := by
  induction xs generalizing ys with
  | nil =>
    cases ys with
    | nil => rfl
    | cons c ys2 =>
      rw [List.nil_append, List.cons_append] at h
      have := (List.cons_prefix_cons.mp h).1
      simp [← this] at hy
  | cons a xs2 ih =>
    cases ys with
    | nil =>
      rw [List.cons_append, List.nil_append] at h
      have := (List.cons_prefix_cons.mp h).1
      simp [this] at hx
    | cons c ys2 =>
      rw [List.cons_append, List.cons_append] at h
      have h1 := (List.cons_prefix_cons.mp h).1
      have h2 := (List.cons_prefix_cons.mp h).2
      have hx2 : ('/' : Char) ∉ xs2 := fun hm => hx (List.mem_cons_of_mem a hm)
      have hy2 : ('/' : Char) ∉ ys2 := fun hm => hy (List.mem_cons_of_mem c hm)
      rw [h1, ih h2 hx2 hy2]

theorem vstr_eq_inj {base : String} {n m : Nat} (h : vstr base n = vstr base m) : n = m := by
  have hd := congrArg String.data h
  rw [vstr_data, vstr_data] at hd
  have h2 := List.append_cancel_left hd
  injection h2 with _ h3
  exact decDigits_inj h3

theorem vstr_slash_data (base : String) (n : Nat) :
    (vstr base n ++ "/").data = base.data ++ '-' :: (decDigits n ++ ['/']) := by
  have hq : (("/" : String)).data = ['/'] := rfl
  rw [String.data_append, vstr_data, hq, List.append_assoc, List.cons_append]

theorem not_vstr_slash_prefix_vstr {base : String} {n m : Nat}
    (h : (vstr base m ++ "/").data <+: (vstr base n).data) : False := by
  rw [vstr_slash_data, vstr_data] at h
  have h2 := (List.prefix_append_right_inj base.data).mp h
  have h3 := (List.cons_prefix_cons.mp h2).2
  have h4 : ('/' : Char) ∈ decDigits n := h3.sublist.mem (by simp)
  exact slash_not_mem_decDigits n h4

theorem vstr_slash_prefix_inj {base : String} {n m : Nat}
    (h : (vstr base n ++ "/").data <+: (vstr base m ++ "/").data) : n = m := by
  rw [vstr_slash_data, vstr_slash_data] at h
  have h2 := (List.prefix_append_right_inj base.data).mp h
  have h3 := (List.cons_prefix_cons.mp h2).2
  have h4 := append_singleton_prefix_eq h3 (slash_not_mem_decDigits n) (slash_not_mem_decDigits m)
  exact decDigits_inj h4

theorem occ_unique {base e : String} {n m : Nat}
    (hn : (e == vstr base n || strStartsWith e (vstr base n ++ "/")) = true)
    (hm : (e == vstr base m || strStartsWith e (vstr base m ++ "/")) = true) : n = m := by
  rw [Bool.or_eq_true, beq_iff_eq, strStartsWith_iff] at hn hm
  rcases hn with hn | hn <;> rcases hm with hm | hm
  · rw [hn] at hm
    exact vstr_eq_inj hm
  · exact absurd (hn ▸ hm) (fun hc => not_vstr_slash_prefix_vstr hc)
  · exact absurd (hm ▸ hn) (fun hc => (not_vstr_slash_prefix_vstr hc).elim)
  · rcases List.prefix_or_prefix_of_prefix hn hm with hc | hc
    · exact vstr_slash_prefix_inj hc
    · exact (vstr_slash_prefix_inj hc).symm

theorem exists_free_version (fs : FS) (base : String) :
    ∃ m, 1 ≤ m ∧ m < fs.length + 2 ∧ pexists fs (vstr base m) = false := by
  classical
  by_contra hcon
  push_neg at hcon
  have hocc : ∀ m ∈ Finset.Icc 1 (fs.length + 1),
      ∃ e, e ∈ fs ∧ (e.1 == vstr base m || strStartsWith e.1 (vstr base m ++ "/")) = true := by
    intro m hm
    rw [Finset.mem_Icc] at hm
    have h2 : pexists fs (vstr base m) = true := by
      cases h : pexists fs (vstr base m) with
      | false => exact absurd h (hcon m (by omega) (by omega))
      | true => rfl
    simp only [pexists, List.any_eq_true] at h2
    exact h2
  set F : ℕ → String × String := fun m =>
    if hm : m ∈ Finset.Icc 1 (fs.length + 1) then (hocc m hm).choose else ("", "") with hFdef
  have hmaps : ∀ m ∈ Finset.Icc 1 (fs.length + 1), F m ∈ fs.toFinset := by
    intro m hm
    have hsp := (hocc m hm).choose_spec.1
    rw [hFdef]
    simp only [dif_pos hm]
    exact List.mem_toFinset.mpr hsp
  have hcard : fs.toFinset.card < (Finset.Icc 1 (fs.length + 1)).card := by
    have h1 := fs.toFinset_card_le
    rw [Nat.card_Icc]
    omega
  obtain ⟨m₁, hm₁, m₂, hm₂, hne, heq⟩ :=
    Finset.exists_ne_map_eq_of_card_lt_of_maps_to hcard hmaps
  have h1 : ((F m₁).1 == vstr base m₁ || strStartsWith (F m₁).1 (vstr base m₁ ++ "/")) = true := by
    rw [hFdef]
    simp only [dif_pos hm₁]
    exact (hocc m₁ hm₁).choose_spec.2
  have h2 : ((F m₁).1 == vstr base m₂ || strStartsWith (F m₁).1 (vstr base m₂ ++ "/")) = true := by
    rw [heq, hFdef]
    simp only [dif_pos hm₂]
    exact (hocc m₂ hm₂).choose_spec.2
  exact hne (occ_unique h1 h2)

theorem searchFrom_spec (fs : FS) (base : String) :
    ∀ (fuel start : Nat),
      (∃ m, start ≤ m ∧ m < start + fuel ∧ pexists fs (vstr base m) = false) →
      pexists fs (vstr base (searchFrom fs base fuel start)) = false ∧
      start ≤ searchFrom fs base fuel start ∧
      ∀ k, start ≤ k → k < searchFrom fs base fuel start → pexists fs (vstr base k) = true := by
  intro fuel
  induction fuel with
  | zero =>
    intro start hex
    obtain ⟨m, h1, h2, _⟩ := hex
    omega
  | succ fuel ih =>
    intro start hex
    cases hocc : pexists fs (vstr base start) with
    | false =>
      have hred : searchFrom fs base (fuel + 1) start = start := by
        simp [searchFrom, hocc]
      rw [hred]
      exact ⟨hocc, Nat.le_refl start, fun k hk1 hk2 => absurd hk2 (by omega)⟩
    | true =>
      obtain ⟨m, hm1, hm2, hm3⟩ := hex
      have hmne : m ≠ start := by
        intro h
        rw [h, hocc] at hm3
        exact absurd hm3 (by simp)
      have ih2 := ih (start + 1) ⟨m, by omega, by omega, hm3⟩
      have hred : searchFrom fs base (fuel + 1) start = searchFrom fs base fuel (start + 1) := by
        simp [searchFrom, hocc]
      rw [hred]
      refine ⟨ih2.1, by omega, fun k hk1 hk2 => ?_⟩
      by_cases hks : k = start
      · rw [hks]
        exact hocc
      · exact ih2.2.2 k (by omega) hk2

theorem firstFreeVersion_spec (fs : FS) (base : String) :
    pexists fs (vstr base (firstFreeVersion fs base)) = false ∧
    1 ≤ firstFreeVersion fs base ∧
    ∀ k, 1 ≤ k → k < firstFreeVersion fs base → pexists fs (vstr base k) = true := by
  obtain ⟨m, h1, h2, h3⟩ := exists_free_version fs base
  exact searchFrom_spec fs base (fs.length + 1) 1 ⟨m, h1, by omega, h3⟩

theorem pexists_backupName (fs : FS) (ts p : String) :
    pexists fs (backupName fs ts p) = false := by
  cases h : pexists fs (normpath p ++ "." ++ ts) with
  | false =>
    have hred : backupName fs ts p = normpath p ++ "." ++ ts := by
      simp [backupName, h]
    rw [hred]
    exact h
  | true =>
    have hred : backupName fs ts p
        = vstr (normpath p ++ "." ++ ts) (firstFreeVersion fs (normpath p ++ "." ++ ts)) := by
      simp [backupName, h]
    rw [hred]
    exact (firstFreeVersion_spec fs _).1

theorem base_prefix_backupName (fs : FS) (ts p : String) :
    (normpath p ++ "." ++ ts).data <+: (backupName fs ts p).data := by
  cases h : pexists fs (normpath p ++ "." ++ ts) with
  | false =>
    have hred : backupName fs ts p = normpath p ++ "." ++ ts := by
      simp [backupName, h]
    rw [hred]
  | true =>
    have hred : backupName fs ts p
        = vstr (normpath p ++ "." ++ ts) (firstFreeVersion fs (normpath p ++ "." ++ ts)) := by
      simp [backupName, h]
    rw [hred, vstr_data]
    exact List.prefix_append _ _

theorem normpath_lt_backupName (fs : FS) (ts p : String) :
    (normpath p).data.length < (backupName fs ts p).data.length := by
  have h := (base_prefix_backupName fs ts p).length_le
  have h3 : (normpath p ++ "." ++ ts).data.length
      = (normpath p).data.length + 1 + ts.data.length := by
    rw [data_append_append, List.length_append, List.length_append]
    have hdot : (("." : String)).data.length = 1 := rfl
    rw [hdot]
  omega

theorem backupName_ne_normpath (fs : FS) (ts p : String) :
    backupName fs ts p ≠ normpath p := by
  intro h
  have h2 := normpath_lt_backupName fs ts p
  rw [h] at h2
  omega

theorem normpath_not_under_backupName (fs : FS) (ts p : String) :
    strStartsWith (normpath p) (backupName fs ts p ++ "/") = false := by
  cases h : strStartsWith (normpath p) (backupName fs ts p ++ "/") with
  | false => rfl
  | true =>
    exfalso
    have h2 := (strStartsWith_iff.mp h).length_le
    rw [String.data_append] at h2
    have h3 : (("/" : String)).data.length = 1 := rfl
    rw [List.length_append, h3] at h2
    have h4 := normpath_lt_backupName fs ts p
    omega

/-
Association-list filesystem lemmas.
-/

theorem find?_congr_pred {α : Type} (l : List α) (P Q : α → Bool)
    (h : ∀ e ∈ l, P e = Q e) : l.find? P = l.find? Q := by
  induction l with
  | nil => rfl
  | cons e rest ih =>
    have he := h e (List.mem_cons_self e rest)
    have hr : ∀ x ∈ rest, P x = Q x := fun x hx => h x (List.mem_cons_of_mem e hx)
    cases hp : P e with
    | true => simp [List.find?_cons, hp, he ▸ hp]
    | false => simp [List.find?_cons, hp, he ▸ hp, ih hr]

theorem find?_filter_keep {α : Type} (l : List α) (P keep : α → Bool)
    (h : ∀ e ∈ l, P e = true → keep e = true) :
    (l.filter keep).find? P = l.find? P := by
  induction l with
  | nil => rfl
  | cons e rest ih =>
    have hr : ∀ x ∈ rest, P x = true → keep x = true :=
      fun x hx => h x (List.mem_cons_of_mem e hx)
    cases hp : P e with
    | true =>
      have hk := h e (List.mem_cons_self e rest) hp
      rw [List.filter_cons_of_pos hk]
      simp [List.find?_cons, hp]
    | false =>
      cases hk : keep e with
      | true =>
        rw [List.filter_cons_of_pos hk]
        simp [List.find?_cons, hp, ih hr]
      | false =>
        rw [List.filter_cons_of_neg (by simp [hk])]
        simp [List.find?_cons, hp, ih hr]

theorem find?_map_entry (l : List (String × String)) (f : String → String) (P : String → Bool) :
    ((l.map (fun e => (f e.1, e.2))).find? (fun e => P e.1))
      = (l.find? (fun e => P (f e.1))).map (fun e => (f e.1, e.2)) := by
  induction l with
  | nil => rfl
  | cons e rest ih =>
    cases hp : P (f e.1) with
    | true => simp [List.find?_cons, hp]
    | false => simp [List.find?_cons, hp, ih]

theorem any_filter_dropped_false {α : Type} (l : List α) (P keep : α → Bool)
    (h : ∀ e ∈ l, keep e = false → P e = false) :
    (l.filter keep).any P = l.any P := by
  induction l with
  | nil => rfl
  | cons e rest ih =>
    have hr : ∀ x ∈ rest, keep x = false → P x = false :=
      fun x hx => h x (List.mem_cons_of_mem e hx)
    cases hk : keep e with
    | true =>
      rw [List.filter_cons_of_pos hk]
      simp [List.any_cons, ih hr]
    | false =>
      rw [List.filter_cons_of_neg (by simp [hk])]
      rw [List.any_cons, h e (List.mem_cons_self e rest) hk, ih hr]
      simp

theorem fsread_fswrite_self (fs : FS) (p c : String) : fsread (fswrite fs p c) p = some c := by
  simp [fsread, fswrite, List.find?_cons]

theorem fsread_fswrite_ne (fs : FS) {p q : String} (c : String) (h : q ≠ p) :
    fsread (fswrite fs p c) q = fsread fs q := by
  simp only [fsread, fswrite]
  rw [List.find?_cons_of_neg _ (by simp [h.symm])]
  rw [find?_filter_keep fs _ _ (fun e _ hP => by
    have he : e.1 = q := by simpa using hP
    simp [he, h])]

theorem fsread_fsremove_self (fs : FS) (p : String) : fsread (fsremove fs p) p = none := by
  simp only [fsread, fsremove]
  rw [List.find?_eq_none.mpr]
  · rfl
  · intro e he
    have h2 := (List.mem_filter.mp he).2
    simpa using h2

theorem fsread_fsremove_ne (fs : FS) {p q : String} (h : q ≠ p) :
    fsread (fsremove fs p) q = fsread fs q := by
  simp only [fsread, fsremove]
  rw [find?_filter_keep fs _ _ (fun e _ hP => by
    have he : e.1 = q := by simpa using hP
    simp [he, h])]

theorem fsread_none_of_pexists_false {fs : FS} {p : String} (h : pexists fs p = false) :
    fsread fs p = none := by
  simp only [fsread]
  rw [List.find?_eq_none.mpr]
  · rfl
  · intro e he
    simp only [pexists, List.any_eq_false] at h
    have h2 := h e he
    rw [Bool.or_eq_true, not_or] at h2
    exact h2.1

theorem pexists_cons (e : String × String) (fs : FS) (p : String) :
    pexists (e :: fs) p
      = ((e.1 == p || strStartsWith e.1 (p ++ "/")) || pexists fs p) := by
  simp [pexists]

theorem pexists_fswrite_ne (fs : FS) {p q : String} (c : String) (h1 : p ≠ q)
    (h2 : strStartsWith p (q ++ "/") = false) :
    pexists (fswrite fs p c) q = pexists fs q := by
  simp only [fswrite]
  rw [pexists_cons]
  rw [show (((p, c).1 == q) || strStartsWith (p, c).1 (q ++ "/")) = false by
    simp [h1, h2]]
  rw [Bool.false_or]
  exact any_filter_dropped_false fs _ _ (fun e _ hk => by
    have he : e.1 = p := by simpa using hk
    simp [he, h1, h2])

theorem pexists_fsremove_ne (fs : FS) {p q : String} (h1 : p ≠ q)
    (h2 : strStartsWith p (q ++ "/") = false) :
    pexists (fsremove fs p) q = pexists fs q := by
  simp only [fsremove, pexists]
  exact any_filter_dropped_false fs _ _ (fun e _ hk => by
    have he : e.1 = p := by simpa using hk
    simp [he, h1, h2])

/-
Lemmas about tree moves and copies.
-/

theorem bool_eq_of_iff {a b : Bool} (h : a = true ↔ b = true) : a = b := by
  cases a <;> cases b <;> simp_all

theorem str_append_data (s : String) (l : List Char) : (s ++ ⟨l⟩).data = s.data ++ l := rfl

theorem slash_append_data (u x : String) : (u ++ "/" ++ x).data = u.data ++ '/' :: x.data := by
  rw [data_append_append]
  have hq : (("/" : String)).data = ['/'] := rfl
  rw [hq, List.append_assoc, List.singleton_append]

theorem dot_append_data (u x : String) : (u ++ "." ++ x).data = u.data ++ '.' :: x.data := by
  rw [data_append_append]
  have hq : (("." : String)).data = ['.'] := rfl
  rw [hq, List.append_assoc, List.singleton_append]

theorem join_right_inj {u a b : String} (h : u ++ "/" ++ a = u ++ "/" ++ b) : a = b := by
  have hd := congrArg String.data h
  rw [slash_append_data, slash_append_data] at hd
  have h2 := List.append_cancel_left hd
  injection h2 with _ h3
  exact strEq_of_data h3

theorem join_ne_self {u x : String} : u ++ "/" ++ x ≠ u := by
  intro h
  have hd := congrArg String.data h
  rw [slash_append_data] at hd
  have h2 := congrArg List.length hd
  rw [List.length_append] at h2
  simp at h2

theorem join_ne_of_dotted {u ts x s : String} (hs : (u ++ "." ++ ts).data <+: s.data) :
    u ++ "/" ++ x ≠ s := by
  intro h
  have hd := congrArg String.data h
  rw [slash_append_data] at hd
  obtain ⟨t, ht⟩ := hs
  rw [dot_append_data, List.append_assoc, List.cons_append] at ht
  rw [← ht] at hd
  have h2 := List.append_cancel_left hd
  injection h2 with h3 _
  simp at h3

theorem strStartsWith_join (src x : String) :
    strStartsWith (src ++ "/" ++ x) (src ++ "/") = true := by
  rw [strStartsWith_iff]
  have hd : (src ++ "/" ++ x).data = (src ++ "/").data ++ x.data := String.data_append _ _
  rw [hd]
  exact List.prefix_append _ _

theorem strStarts_join_cancel (u a b : String) :
    strStartsWith (u ++ "/" ++ a) ((u ++ "/" ++ b) ++ "/") = strStartsWith a (b ++ "/") := by
  apply bool_eq_of_iff
  rw [strStartsWith_iff, strStartsWith_iff]
  have hq : (("/" : String)).data = ['/'] := rfl
  have h1 : ((u ++ "/" ++ b) ++ "/").data = u.data ++ '/' :: (b.data ++ ['/']) := by
    rw [String.data_append, slash_append_data, hq, List.append_assoc, List.cons_append]
  have h1b : (b ++ "/").data = b.data ++ ['/'] := by rw [String.data_append, hq]
  have h2 : (u ++ "/" ++ a).data = u.data ++ '/' :: a.data := slash_append_data u a
  rw [h1, h1b, h2]
  constructor
  · intro h
    have h3 := (List.prefix_append_right_inj u.data).mp h
    exact (List.cons_prefix_cons.mp h3).2
  · intro h
    exact (List.prefix_append_right_inj u.data).mpr (List.cons_prefix_cons.mpr ⟨rfl, h⟩)

theorem join_eq_join_iff (u a b : String) : (u ++ "/" ++ a = u ++ "/" ++ b) ↔ a = b :=
  ⟨join_right_inj, fun h => by rw [h]⟩

theorem under_decomp {p src : String} (h : strStartsWith p (src ++ "/") = true) :
    ∃ l : List Char, p.data = src.data ++ '/' :: l ∧ p.data.drop src.data.length = '/' :: l := by
  obtain ⟨t, ht⟩ := strStartsWith_iff.mp h
  have hq : (src ++ "/").data = src.data ++ ['/'] := String.data_append _ _
  rw [hq, List.append_assoc, List.singleton_append] at ht
  refine ⟨t, ht.symm, ?_⟩
  rw [← ht]
  exact List.drop_left src.data _

theorem rebase_self (src dst : String) : rebasePath src dst src = dst := by
  simp [rebasePath]

theorem rebase_unrelated {src dst p : String} (h1 : p ≠ src)
    (h2 : strStartsWith p (src ++ "/") = false) : rebasePath src dst p = p := by
  simp [rebasePath, h1, h2]

theorem rebase_under_eq {src dst p : String} (hne : p ≠ src)
    (h : strStartsWith p (src ++ "/") = true) :
    rebasePath src dst p = dst ++ ⟨p.data.drop src.data.length⟩ := by
  simp [rebasePath, hne, h]

theorem rebase_join (src dst x : String) :
    rebasePath src dst (src ++ "/" ++ x) = dst ++ "/" ++ x := by
  rw [rebase_under_eq join_ne_self (strStartsWith_join src x)]
  obtain ⟨l, hl1, hl2⟩ := under_decomp (strStartsWith_join src x)
  rw [hl2]
  apply strEq_of_data
  rw [str_append_data, slash_append_data]
  have h3 : (src ++ "/" ++ x).data = src.data ++ '/' :: x.data := slash_append_data src x
  rw [h3] at hl1
  have h4 := List.append_cancel_left hl1
  injection h4 with _ h5
  rw [h5]

theorem rebase_image_related {src dst p : String}
    (h : p = src ∨ strStartsWith p (src ++ "/") = true) :
    rebasePath src dst p = dst ∨ strStartsWith (rebasePath src dst p) (dst ++ "/") = true := by
  by_cases hp : p = src
  · left
    rw [hp, rebase_self]
  · rcases h with h | h
    · exact absurd h hp
    · right
      rw [rebase_under_eq hp h]
      obtain ⟨l, _, hl2⟩ := under_decomp h
      rw [hl2, strStartsWith_iff, str_append_data, String.data_append]
      have hq : (("/" : String)).data = ['/'] := rfl
      rw [hq]
      rw [show ('/' :: l) = ['/'] ++ l from rfl, ← List.append_assoc]
      exact List.prefix_append _ _

theorem rebase_inj_rel {src dst e q : String}
    (he : e = src ∨ strStartsWith e (src ++ "/") = true)
    (hq : q = src ∨ strStartsWith q (src ++ "/") = true) :
    rebasePath src dst e = rebasePath src dst q ↔ e = q := by
  constructor
  · intro h
    by_cases he1 : e = src <;> by_cases hq1 : q = src
    · rw [he1, hq1]
    · exfalso
      rcases hq with hq | hq
      · exact hq1 hq
      · rw [he1, rebase_self, rebase_under_eq hq1 hq] at h
        obtain ⟨l, _, hl2⟩ := under_decomp hq
        rw [hl2] at h
        have hd := congrArg String.data h
        rw [str_append_data] at hd
        have h2 := congrArg List.length hd
        rw [List.length_append] at h2
        simp at h2
    · exfalso
      rcases he with he | he
      · exact he1 he
      · rw [hq1, rebase_self, rebase_under_eq he1 he] at h
        obtain ⟨l, _, hl2⟩ := under_decomp he
        rw [hl2] at h
        have hd := congrArg String.data h
        rw [str_append_data] at hd
        have h2 := congrArg List.length hd
        rw [List.length_append] at h2
        simp at h2
    · rcases he with he | he
      · exact absurd he he1
      rcases hq with hq | hq
      · exact absurd hq hq1
      rw [rebase_under_eq he1 he, rebase_under_eq hq1 hq] at h
      obtain ⟨le, hle1, hle2⟩ := under_decomp he
      obtain ⟨lq, hlq1, hlq2⟩ := under_decomp hq
      rw [hle2, hlq2] at h
      have hd := congrArg String.data h
      rw [str_append_data, str_append_data] at hd
      have h2 := List.append_cancel_left hd
      apply strEq_of_data
      rw [hle1, hlq1, h2]
  · intro h
    rw [h]

theorem rebase_inj_gen {src dst e q : String}
    (he : ¬(e = dst ∨ strStartsWith e (dst ++ "/") = true))
    (hq : q = src ∨ strStartsWith q (src ++ "/") = true) :
    rebasePath src dst e = rebasePath src dst q ↔ e = q := by
  by_cases her : e = src ∨ strStartsWith e (src ++ "/") = true
  · exact rebase_inj_rel her hq
  · push_neg at her
    have her2 : strStartsWith e (src ++ "/") = false := by
      cases hb : strStartsWith e (src ++ "/")
      · rfl
      · exact absurd hb her.2
    rw [rebase_unrelated her.1 her2]
    constructor
    · intro h
      exfalso
      apply he
      rw [h]
      exact rebase_image_related hq
    · intro h
      exfalso
      rw [← h] at hq
      rcases hq with hq | hq
      · exact her.1 hq
      · exact her.2 hq

theorem find?_map_entry_beq (l : List (String × String)) (f : String → String) (t : String) :
    ((l.map (fun e => (f e.1, e.2))).find? (fun e => e.1 == t))
      = (l.find? (fun e => f e.1 == t)).map (fun e => (f e.1, e.2)) :=
  find?_map_entry l f (fun s => s == t)

theorem fsread_moveTree_rel (fs : FS) {src dst : String} (q : String)
    (hfresh : pexists fs dst = false)
    (hq : q = src ∨ strStartsWith q (src ++ "/") = true) :
    fsread (moveTree fs src dst) (rebasePath src dst q) = fsread fs q := by
  simp only [fsread, moveTree]
  rw [find?_map_entry_beq fs (rebasePath src dst) (rebasePath src dst q)]
  have hpw : ∀ e ∈ fs, (rebasePath src dst e.1 == rebasePath src dst q) = (e.1 == q) := by
    intro e he
    simp only [pexists, List.any_eq_false] at hfresh
    have h2 := hfresh e he
    rw [Bool.or_eq_true, not_or] at h2
    have hne : ¬(e.1 = dst ∨ strStartsWith e.1 (dst ++ "/") = true) := by
      push_neg
      exact ⟨by simpa using h2.1, h2.2⟩
    by_cases hb : e.1 = q
    · simp [hb]
    · have hc : rebasePath src dst e.1 ≠ rebasePath src dst q :=
        fun hcc => hb ((rebase_inj_gen hne hq).mp hcc)
      simp [hb, hc]
  rw [find?_congr_pred fs _ _ hpw]
  cases hf : fs.find? (fun e => e.1 == q) <;> rfl

theorem fsread_moveTree_dst (fs : FS) {src dst : String} (hfresh : pexists fs dst = false) :
    fsread (moveTree fs src dst) dst = fsread fs src := by
  have h := fsread_moveTree_rel fs src hfresh (Or.inl rfl)
  rw [rebase_self] at h
  exact h

theorem fsread_moveTree_join (fs : FS) {src dst : String} (x : String)
    (hfresh : pexists fs dst = false) :
    fsread (moveTree fs src dst) (dst ++ "/" ++ x) = fsread fs (src ++ "/" ++ x) := by
  have h := fsread_moveTree_rel fs (src ++ "/" ++ x) hfresh (Or.inr (strStartsWith_join src x))
  rw [rebase_join] at h
  exact h

theorem fsread_moveTree_unrel (fs : FS) {src dst q : String}
    (hq1 : q ≠ src) (hq2 : strStartsWith q (src ++ "/") = false)
    (hq3 : q ≠ dst) (hq4 : strStartsWith q (dst ++ "/") = false) :
    fsread (moveTree fs src dst) q = fsread fs q := by
  simp only [fsread, moveTree]
  rw [find?_map_entry_beq fs (rebasePath src dst) q]
  have hpw : ∀ e ∈ fs, (rebasePath src dst e.1 == q) = (e.1 == q) := by
    intro e _
    by_cases her : e.1 = src ∨ strStartsWith e.1 (src ++ "/") = true
    · have hiq : rebasePath src dst e.1 ≠ q := by
        rcases rebase_image_related her with him | him
        · rw [him]
          exact fun hc => hq3 hc.symm
        · intro hc
          rw [hc] at him
          rw [him] at hq4
          simp at hq4
      have heq : e.1 ≠ q := by
        intro hc
        rw [hc] at her
        rcases her with h | h
        · exact hq1 h
        · rw [h] at hq2
          simp at hq2
      simp [hiq, heq]
    · push_neg at her
      have her2 : strStartsWith e.1 (src ++ "/") = false := by
        cases hb : strStartsWith e.1 (src ++ "/")
        · rfl
        · exact absurd hb her.2
      rw [rebase_unrelated her.1 her2]
  rw [find?_congr_pred fs _ _ hpw]
  cases hf : fs.find? (fun e => e.1 == q) <;> rfl

theorem fsread_moveTree_src_none (fs : FS) {src dst : String}
    (h1 : dst ≠ src) (h2 : strStartsWith src (dst ++ "/") = false) :
    fsread (moveTree fs src dst) src = none := by
  simp only [fsread, moveTree]
  rw [find?_map_entry_beq fs (rebasePath src dst) src]
  have hall : ∀ e ∈ fs, ¬((fun e : String × String => rebasePath src dst e.1 == src) e = true) := by
    intro e _ hc
    have hc2 : rebasePath src dst e.1 = src := by simpa using hc
    by_cases her : e.1 = src ∨ strStartsWith e.1 (src ++ "/") = true
    · rcases rebase_image_related her with him | him
      · rw [hc2] at him
        exact h1 him.symm
      · rw [hc2] at him
        rw [him] at h2
        simp at h2
    · push_neg at her
      have her2 : strStartsWith e.1 (src ++ "/") = false := by
        cases hb : strStartsWith e.1 (src ++ "/")
        · rfl
        · exact absurd hb her.2
      rw [rebase_unrelated her.1 her2] at hc2
      exact her.1 hc2
  rw [List.find?_eq_none.mpr hall]
  rfl

theorem fsread_copyTree_hit (fs : FS) (src dst x c : String)
    (h : fsread fs (src ++ "/" ++ x) = some c) :
    fsread (copyTree fs src dst) (dst ++ "/" ++ x) = some c := by
  obtain ⟨e₀, hf, he₀⟩ : ∃ e₀, fs.find? (fun e => e.1 == src ++ "/" ++ x) = some e₀ ∧ e₀.2 = c := by
    simp only [fsread] at h
    cases hff : fs.find? (fun e => e.1 == src ++ "/" ++ x) with
    | none =>
      rw [hff] at h
      simp at h
    | some a =>
      rw [hff] at h
      simp at h
      exact ⟨a, rfl, h⟩
  simp only [fsread, copyTree]
  rw [List.find?_append]
  rw [find?_map_entry_beq (fs.filter (fun e => e.1 == src || strStartsWith e.1 (src ++ "/")))
    (rebasePath src dst) (dst ++ "/" ++ x)]
  have hpw : ∀ e ∈ fs.filter (fun e => e.1 == src || strStartsWith e.1 (src ++ "/")),
      (rebasePath src dst e.1 == dst ++ "/" ++ x) = (e.1 == src ++ "/" ++ x) := by
    intro e he
    have hrel : e.1 = src ∨ strStartsWith e.1 (src ++ "/") = true := by
      have h2 := (List.mem_filter.mp he).2
      rw [Bool.or_eq_true] at h2
      rcases h2 with h2 | h2
      · exact Or.inl (by simpa using h2)
      · exact Or.inr h2
    have hiff := @rebase_inj_rel src dst e.1 (src ++ "/" ++ x) hrel
      (Or.inr (strStartsWith_join src x))
    rw [rebase_join] at hiff
    by_cases hb : e.1 = src ++ "/" ++ x
    · simp [hb, rebase_join]
    · have hc : rebasePath src dst e.1 ≠ dst ++ "/" ++ x := fun hcc => hb (hiff.mp hcc)
      simp [hb, hc]
  rw [find?_congr_pred _ _ _ hpw]
  rw [find?_filter_keep fs _ _ (fun e _ hP => by
    have he : e.1 = src ++ "/" ++ x := by simpa using hP
    rw [he]
    simp [strStartsWith_join src x])]
  rw [hf]
  simp [he₀]

theorem fsread_copyTree_miss (fs : FS) (src dst x : String)
    (h : fsread fs (src ++ "/" ++ x) = none) :
    fsread (copyTree fs src dst) (dst ++ "/" ++ x) = fsread fs (dst ++ "/" ++ x) := by
  have hf : fs.find? (fun e => e.1 == src ++ "/" ++ x) = none := by
    simp only [fsread] at h
    cases hff : fs.find? (fun e => e.1 == src ++ "/" ++ x) with
    | none => rfl
    | some a =>
      rw [hff] at h
      simp at h
  have hall : ∀ ce ∈ (fs.filter (fun e => e.1 == src || strStartsWith e.1 (src ++ "/"))).map
      (fun e => (rebasePath src dst e.1, e.2)), ce.1 ≠ dst ++ "/" ++ x := by
    intro ce hce hceq
    obtain ⟨e2, he2, he2eq⟩ := List.mem_map.mp hce
    have hrel : e2.1 = src ∨ strStartsWith e2.1 (src ++ "/") = true := by
      have h2 := (List.mem_filter.mp he2).2
      rw [Bool.or_eq_true] at h2
      rcases h2 with h2 | h2
      · exact Or.inl (by simpa using h2)
      · exact Or.inr h2
    have hiff := @rebase_inj_rel src dst e2.1 (src ++ "/" ++ x) hrel
      (Or.inr (strStartsWith_join src x))
    rw [rebase_join] at hiff
    have hname : rebasePath src dst e2.1 = dst ++ "/" ++ x := by
      rw [← he2eq] at hceq
      exact hceq
    have he2name : e2.1 = src ++ "/" ++ x := hiff.mp hname
    have hmem2 : e2 ∈ fs := (List.mem_filter.mp he2).1
    have := List.find?_eq_none.mp hf e2 hmem2
    exact this (by simp [he2name])
  simp only [fsread, copyTree]
  rw [List.find?_append]
  rw [find?_map_entry_beq (fs.filter (fun e => e.1 == src || strStartsWith e.1 (src ++ "/")))
    (rebasePath src dst) (dst ++ "/" ++ x)]
  have hpw : ∀ e ∈ fs.filter (fun e => e.1 == src || strStartsWith e.1 (src ++ "/")),
      (rebasePath src dst e.1 == dst ++ "/" ++ x) = (e.1 == src ++ "/" ++ x) := by
    intro e he
    have hrel : e.1 = src ∨ strStartsWith e.1 (src ++ "/") = true := by
      have h2 := (List.mem_filter.mp he).2
      rw [Bool.or_eq_true] at h2
      rcases h2 with h2 | h2
      · exact Or.inl (by simpa using h2)
      · exact Or.inr h2
    have hiff := @rebase_inj_rel src dst e.1 (src ++ "/" ++ x) hrel
      (Or.inr (strStartsWith_join src x))
    rw [rebase_join] at hiff
    by_cases hb : e.1 = src ++ "/" ++ x
    · simp [hb, rebase_join]
    · have hc : rebasePath src dst e.1 ≠ dst ++ "/" ++ x := fun hcc => hb (hiff.mp hcc)
      simp [hb, hc]
  rw [find?_congr_pred _ _ _ hpw]
  rw [find?_filter_keep fs _ _ (fun e _ hP => by
    have he : e.1 = src ++ "/" ++ x := by simpa using hP
    rw [he]
    simp [strStartsWith_join src x])]
  rw [hf]
  rw [find?_filter_keep fs _ _ (fun e _ hP => by
    have he : e.1 = dst ++ "/" ++ x := by simpa using hP
    rw [List.all_eq_true]
    intro ce hce
    have := hall ce hce
    simp [he, this])]
  rfl

theorem fsread_copyTree_unrel (fs : FS) (src dst q : String)
    (hq3 : q ≠ dst) (hq4 : strStartsWith q (dst ++ "/") = false) :
    fsread (copyTree fs src dst) q = fsread fs q := by
  have hall : ∀ ce ∈ (fs.filter (fun e => e.1 == src || strStartsWith e.1 (src ++ "/"))).map
      (fun e => (rebasePath src dst e.1, e.2)), ce.1 ≠ q := by
    intro ce hce hceq
    obtain ⟨e2, he2, he2eq⟩ := List.mem_map.mp hce
    have hrel : e2.1 = src ∨ strStartsWith e2.1 (src ++ "/") = true := by
      have h2 := (List.mem_filter.mp he2).2
      rw [Bool.or_eq_true] at h2
      rcases h2 with h2 | h2
      · exact Or.inl (by simpa using h2)
      · exact Or.inr h2
    have hname : rebasePath src dst e2.1 = q := by
      rw [← he2eq] at hceq
      exact hceq
    rcases rebase_image_related hrel with him | him
    · rw [hname] at him
      exact hq3 him
    · rw [hname] at him
      rw [him] at hq4
      simp at hq4
  simp only [fsread, copyTree]
  rw [List.find?_append]
  rw [List.find?_eq_none.mpr (fun ce hce => by
    have := hall ce hce
    simpa using this)]
  rw [find?_filter_keep fs _ _ (fun e _ hP => by
    have he : e.1 = q := by simpa using hP
    rw [List.all_eq_true]
    intro ce hce
    have := hall ce hce
    simp [he, this])]
  rfl

theorem mwts_eq_some {fs : FS} {ts p : String} (h : pexists fs (normpath p) = true) :
    move_with_timestamp fs ts p
      = some (backupName fs ts p, moveTree fs (normpath p) (backupName fs ts p)) := by
  simp [move_with_timestamp, h]

theorem mwts_eq_none {fs : FS} {ts p : String} (h : pexists fs (normpath p) = false) :
    move_with_timestamp fs ts p = none := by
  simp [move_with_timestamp, h]

theorem install_fresh_cons (fs : FS) (ud : String) (e : String × String)
    (rest : List (String × String)) :
    install_fresh fs ud (e :: rest) = install_fresh (fswrite fs (ud ++ "/" ++ e.1) e.2) ud rest :=
  rfl

theorem fsread_install_fresh_other (fs : FS) (ud : String) (fresh : List (String × String))
    (q : String) (h : ∀ e ∈ fresh, ud ++ "/" ++ e.1 ≠ q) :
    fsread (install_fresh fs ud fresh) q = fsread fs q := by
  induction fresh generalizing fs with
  | nil => rfl
  | cons e rest ih =>
    rw [install_fresh_cons]
    rw [ih _ (fun e2 he2 => h e2 (List.mem_cons_of_mem e he2))]
    exact fsread_fswrite_ne fs _ (fun hc => h e (List.mem_cons_self e rest) hc.symm)

theorem fsread_install_fresh_mem (fs : FS) (ud : String) (fresh : List (String × String))
    (dname D : String) (hmem : (dname, D) ∈ fresh) (hnodup : (fresh.map Prod.fst).Nodup) :
    fsread (install_fresh fs ud fresh) (ud ++ "/" ++ dname) = some D := by
  induction fresh generalizing fs with
  | nil => cases hmem
  | cons e rest ih =>
    rw [install_fresh_cons]
    rw [List.map_cons, List.nodup_cons] at hnodup
    rcases List.mem_cons.mp hmem with heq | hmem2
    · have h1 : e.1 = dname := by rw [← heq]
      have h2 : e.2 = D := by rw [← heq]
      have hother : ∀ e2 ∈ rest, ud ++ "/" ++ e2.1 ≠ ud ++ "/" ++ dname := by
        intro e2 he2 hc
        have h3 := join_right_inj hc
        apply hnodup.1
        rw [h1]
        exact List.mem_map.mpr ⟨e2, he2, h3⟩
      rw [fsread_install_fresh_other _ _ _ _ hother]
      rw [h1, h2]
      exact fsread_fswrite_self fs _ _
    · exact ih _ hmem2 hnodup.2

theorem fsread_legacy_cleanup (fs : FS) (ud r : String)
    (h1 : r ≠ "schemas.py") (h2 : strStartsWith r ("schemas.py" ++ "/") = false)
    (h3 : r ≠ "schemas.py.old") (h4 : strStartsWith r ("schemas.py.old" ++ "/") = false)
    (h5 : r ≠ "schemas.pyc") :
    fsread (legacy_cleanup fs ud) (ud ++ "/" ++ r) = fsread fs (ud ++ "/" ++ r) := by
  cases hsp : pexists fs (ud ++ "/" ++ "schemas.py") with
  | false =>
    have hred : legacy_cleanup fs ud = fsremove fs (ud ++ "/" ++ "schemas.pyc") := by
      simp [legacy_cleanup, hsp]
    rw [hred]
    exact fsread_fsremove_ne fs (fun hc => h5 (join_right_inj hc))
  | true =>
    have hred : legacy_cleanup fs ud
        = fsremove (moveTree fs (ud ++ "/" ++ "schemas.py") (ud ++ "/" ++ "schemas.py.old"))
            (ud ++ "/" ++ "schemas.pyc") := by
      simp [legacy_cleanup, hsp]
    rw [hred]
    rw [fsread_fsremove_ne _ (fun hc => h5 (join_right_inj hc))]
    apply fsread_moveTree_unrel
    · exact fun hc => h1 (join_right_inj hc)
    · rw [strStarts_join_cancel]
      exact h2
    · exact fun hc => h3 (join_right_inj hc)
    · rw [strStarts_join_cancel]
      exact h4

theorem pexists_of_read_join {fs : FS} {u x c : String}
    (h : fsread fs (u ++ "/" ++ x) = some c) : pexists fs u = true := by
  simp only [fsread] at h
  cases hf : fs.find? (fun e => e.1 == u ++ "/" ++ x) with
  | none =>
    rw [hf] at h
    simp at h
  | some e₀ =>
    have hname : e₀.1 = u ++ "/" ++ x := by
      have := List.find?_some hf
      simpa using this
    have hmem : e₀ ∈ fs := List.mem_of_find?_eq_some hf
    simp only [pexists, List.any_eq_true]
    exact ⟨e₀, hmem, by
      rw [hname]
      simp [strStartsWith_join]⟩

theorem pexists_of_read {fs : FS} {p c : String} (h : fsread fs p = some c) :
    pexists fs p = true := by
  simp only [fsread] at h
  cases hf : fs.find? (fun e => e.1 == p) with
  | none =>
    rw [hf] at h
    simp at h
  | some e₀ =>
    have hname : e₀.1 = p := by
      have h2 := List.find?_some hf
      simpa using h2
    have hmem : e₀ ∈ fs := List.mem_of_find?_eq_some hf
    simp only [pexists, List.any_eq_true]
    exact ⟨e₀, hmem, by simp [hname]⟩

theorem mwts_inv {fs : FS} {ts p r : String} {fs' : FS}
    (h : move_with_timestamp fs ts p = some (r, fs')) :
    pexists fs (normpath p) = true ∧ r = backupName fs ts p ∧
    fs' = moveTree fs (normpath p) (backupName fs ts p) := by
  cases hsrc : pexists fs (normpath p) with
  | false =>
    rw [mwts_eq_none hsrc] at h
    cases h
  | true =>
    rw [mwts_eq_some hsrc] at h
    injection h with h2
    injection h2 with h3 h4
    exact ⟨rfl, h3.symm, h4.symm⟩

theorem prefix_data_join (s y : String) : s.data <+: (s ++ "/" ++ y).data := by
  rw [slash_append_data]
  have h : s.data ++ '/' :: y.data = s.data ++ ('/' :: y.data) := rfl
  rw [h]
  exact List.prefix_append _ _

theorem get_set_same (d : ConfigDict) (k v : String) :
    ConfigDict.get (ConfigDict.set d k v) k = some v := by
  induction d with
  | nil => simp [ConfigDict.set, ConfigDict.get, List.find?_cons]
  | cons e rest ih =>
    obtain ⟨k', v'⟩ := e
    by_cases hk : k' = k
    · simp [ConfigDict.set, hk, ConfigDict.get, List.find?_cons]
    · have hb : (k' == k) = false := by simp [hk]
      simp only [ConfigDict.set, hb, Bool.false_eq_true, if_false]
      simp only [ConfigDict.get] at ih
      simp only [ConfigDict.get, List.find?_cons, hb]
      exact ih

/-
Claim theorems.
-/

/-- Claim C8: install-root stamping is absolute.  Whatever the external
merge, profile and prompting collaborators produce from the two source
trees, and whatever install-root value either source tree contains, the
configuration produced by update_and_install_config carries WEEWX_ROOT
equal to the (normalized) actual installation path that was passed in. -/
theorem c8_weewx_root_stamped (mergeFn : ConfigDict → ConfigDict → ConfigDict)
    (modifyFn : ConfigDict → List (String × String) → ConfigDict)
    (promptFn : ConfigDict → List (String × String))
    (dist_config : ConfigDict) (old_config : Option ConfigDict)
    (no_prompt : Bool) (install_dir : String) :
    ConfigDict.get
      (prepare_config mergeFn modifyFn promptFn dist_config old_config no_prompt install_dir)
      "WEEWX_ROOT" = some (normpath install_dir) := by
  simp only [prepare_config]
  exact get_set_same _ _ _

/-- Claim C10: in no-prompt mode with no pre-existing configuration file,
the station profile applied to the distribution template by
update_and_install_config is exactly the two-entry mapping from
station_type to Simulator and driver to weewx.drivers.simulator. -/
theorem c10_default_profile (mergeFn : ConfigDict → ConfigDict → ConfigDict)
    (modifyFn : ConfigDict → List (String × String) → ConfigDict)
    (promptFn : ConfigDict → List (String × String))
    (dist_config : ConfigDict) (install_dir : String) :
    prepare_config mergeFn modifyFn promptFn dist_config none true install_dir
      = ConfigDict.set
          (modifyFn dist_config
            [("station_type", "Simulator"), ("driver", "weewx.drivers.simulator")])
          "WEEWX_ROOT" (normpath install_dir) := rfl

/-- Claim C2: backup naming.  A successful move_with_timestamp call on a
path (trailing separators normalized away) returns path.timestamp when
that name did not exist, and otherwise path.timestamp-n for the smallest
positive n whose candidate did not exist; the returned path never exists
beforehand; and repeated calls on the same path within the same second
(with the previously returned backup paths still present on disk, where
the call itself put them) never return the same value twice. -/
theorem c2_backup_naming (fs : FS) (ts p r : String) (fs' : FS)
    (h : move_with_timestamp fs ts p = some (r, fs')) :
    ((pexists fs (normpath p ++ "." ++ ts) = false ∧ r = normpath p ++ "." ++ ts) ∨
      (pexists fs (normpath p ++ "." ++ ts) = true ∧
        ∃ n, 1 ≤ n ∧ r = vstr (normpath p ++ "." ++ ts) n ∧
          pexists fs (vstr (normpath p ++ "." ++ ts) n) = false ∧
          ∀ k, 1 ≤ k → k < n → pexists fs (vstr (normpath p ++ "." ++ ts) k) = true)) ∧
    pexists fs r = false ∧
    (∀ (fs₂ fs₂' fs₃ fs₃' : FS) (r₂ r₃ : String),
      move_with_timestamp fs₂ ts p = some (r₂, fs₂') →
      move_with_timestamp fs₃ ts p = some (r₃, fs₃') →
      pexists fs₂ r = true → pexists fs₃ r = true → pexists fs₃ r₂ = true →
      r ≠ r₂ ∧ r ≠ r₃ ∧ r₂ ≠ r₃) := by
  obtain ⟨hsrc, hr, hfs'⟩ := mwts_inv h
  refine ⟨?_, ?_, ?_⟩
  · rw [hr]
    cases hbase : pexists fs (normpath p ++ "." ++ ts) with
    | false =>
      left
      refine ⟨rfl, ?_⟩
      simp [backupName, hbase]
    | true =>
      right
      have hspec := firstFreeVersion_spec fs (normpath p ++ "." ++ ts)
      refine ⟨rfl, firstFreeVersion fs (normpath p ++ "." ++ ts), hspec.2.1, ?_, hspec.1,
        hspec.2.2⟩
      simp [backupName, hbase]
  · rw [hr]
    exact pexists_backupName fs ts p
  · intro fs₂ fs₂' fs₃ fs₃' r₂ r₃ h₂ h₃ hin₂ hin₃ hin₂₃
    obtain ⟨_, hr₂, _⟩ := mwts_inv h₂
    obtain ⟨_, hr₃, _⟩ := mwts_inv h₃
    have hfree₂ : pexists fs₂ r₂ = false := by
      rw [hr₂]
      exact pexists_backupName fs₂ ts p
    have hfree₃ : pexists fs₃ r₃ = false := by
      rw [hr₃]
      exact pexists_backupName fs₃ ts p
    refine ⟨?_, ?_, ?_⟩
    · intro hc
      rw [hc] at hin₂
      rw [hin₂] at hfree₂
      cases hfree₂
    · intro hc
      rw [hc] at hin₃
      rw [hin₃] at hfree₃
      cases hfree₃
    · intro hc
      rw [hc] at hin₂₃
      rw [hin₂₃] at hfree₃
      cases hfree₃

/-- Witness for claim C2: three same-second calls against the fixture path
a (with the fixture recreated and earlier backups left in place) return
three pairwise distinct backup names. -/
theorem c2_backup_naming_witness :
    ("a.20200101000000" : String) ≠ "a.20200101000000-1" ∧
    ("a.20200101000000" : String) ≠ "a.20200101000000-2" ∧
    ("a.20200101000000-1" : String) ≠ "a.20200101000000-2" :=
  (c2_backup_naming [("a", "x")] "20200101000000" "a" "a.20200101000000"
      [("a.20200101000000", "x")] (by decide)).2.2
    [("a", "x2"), ("a.20200101000000", "x")]
    [("a.20200101000000-1", "x2"), ("a.20200101000000", "x")]
    [("a", "x3"), ("a.20200101000000", "x"), ("a.20200101000000-1", "x2")]
    [("a.20200101000000-2", "x3"), ("a.20200101000000", "x"), ("a.20200101000000-1", "x2")]
    "a.20200101000000-1" "a.20200101000000-2"
    (by decide) (by decide) (by decide) (by decide) (by decide)

/-- Claim C3 counterexample: move_with_timestamp is not a pure naming
function; on the single-file filesystem holding a, it returns the backup
name and a changed filesystem in which a has been moved. -/
theorem c3_pure_counterexample :
    move_with_timestamp [("a", "x")] "20200101000000" "a"
      = some ("a.20200101000000", [("a.20200101000000", "x")]) ∧
    ([("a.20200101000000", "x")] : FS) ≠ [("a", "x")] :=
  ⟨by decide, by decide⟩

/-- Claim C3 (amended): move_with_timestamp computes the backup path and
itself performs the move, so on return the backup path holds what the
(normalized) input path held and the input path no longer holds a file;
callers do not move anything themselves. -/
theorem c3_amended_moves_file (fs : FS) (ts p r : String) (fs' : FS)
    (h : move_with_timestamp fs ts p = some (r, fs')) :
    r ≠ normpath p ∧ fsread fs' r = fsread fs (normpath p) ∧
    fsread fs' (normpath p) = none := by
  obtain ⟨hsrc, hr, hfs'⟩ := mwts_inv h
  subst hr
  subst hfs'
  refine ⟨backupName_ne_normpath fs ts p, ?_, ?_⟩
  · exact fsread_moveTree_dst fs (pexists_backupName fs ts p)
  · exact fsread_moveTree_src_none fs (backupName_ne_normpath fs ts p)
      (normpath_not_under_backupName fs ts p)

/-- Witness for the amended claim C3 at a concrete one-file filesystem. -/
theorem c3_amended_witness :
    ("a.20200101000000" : String) ≠ normpath "a" ∧
    fsread [("a.20200101000000", "x")] "a.20200101000000"
      = fsread [("a", "x")] (normpath "a") ∧
    fsread [("a.20200101000000", "x")] (normpath "a") = none :=
  c3_amended_moves_file [("a", "x")] "20200101000000" "a" "a.20200101000000"
    [("a.20200101000000", "x")] (by decide)

/-- Claim C6: temporary-file cleanup.  Whatever the pre-run filesystem,
the oracle outcomes of the fallible steps, and the dry-run flag, after
update_and_install_config finishes (normally or by propagating an
exception) the temporary file created for the serialized configuration no
longer exists: the finally block deletes it on every exit path. -/
theorem c6_tmpfile_cleanup (fs0 : FS) (tmpfn install_path template_path ts content : String)
    (dry_run : Bool) (orc : Oracle) :
    fsread (update_and_install_lower fs0 tmpfn install_path template_path ts content
      dry_run orc).final tmpfn = none := by
  simp only [update_and_install_lower]
  repeat' split
  all_goals exact fsread_fsremove_self _ _

/-- Claim C7: dry run makes no destructive change.  With dry run enabled,
for every pre-run filesystem state and every oracle outcome, no backup
path is produced, every file other than the temporary one reads exactly
as before the run (so an existing destination configuration is
byte-identical and no backup file has been created), and the temporary
file is still cleaned up. -/
theorem c7_dry_run_frame (fs0 : FS) (tmpfn install_path template_path ts content : String)
    (orc : Oracle) :
    (update_and_install_lower fs0 tmpfn install_path template_path ts content true
        orc).backupPath = none ∧
    (∀ q, q ≠ tmpfn →
      fsread (update_and_install_lower fs0 tmpfn install_path template_path ts content true
        orc).final q = fsread fs0 q) ∧
    fsread (update_and_install_lower fs0 tmpfn install_path template_path ts content true
      orc).final tmpfn = none := by
  cases hw : orc.writeFails with
  | true =>
    have hred : update_and_install_lower fs0 tmpfn install_path template_path ts content true orc
        = ⟨false, none, [fswrite fs0 tmpfn "", fsremove (fswrite fs0 tmpfn "") tmpfn],
            fsremove (fswrite fs0 tmpfn "") tmpfn⟩ := by
      simp [update_and_install_lower, hw]
    rw [hred]
    refine ⟨rfl, ?_, fsread_fsremove_self _ _⟩
    intro q hq
    rw [fsread_fsremove_ne _ hq, fsread_fswrite_ne _ _ hq]
  | false =>
    have hred : update_and_install_lower fs0 tmpfn install_path template_path ts content true orc
        = ⟨true, none,
            [fswrite fs0 tmpfn "", fswrite (fswrite fs0 tmpfn "") tmpfn content,
              fsremove (fswrite (fswrite fs0 tmpfn "") tmpfn content) tmpfn],
            fsremove (fswrite (fswrite fs0 tmpfn "") tmpfn content) tmpfn⟩ := by
      simp [update_and_install_lower, hw]
    rw [hred]
    refine ⟨rfl, ?_, fsread_fsremove_self _ _⟩
    intro q hq
    rw [fsread_fsremove_ne _ hq, fsread_fswrite_ne _ _ hq, fsread_fswrite_ne _ _ hq]

/-- Witness for claim C7 at a concrete filesystem with a pre-existing
configuration: the destination file reads unchanged after the dry run. -/
theorem c7_dry_run_witness :
    fsread (update_and_install_lower [("w/weewx.conf", "old")] "tmp/cfg" "w/weewx.conf"
      "w/weewx.conf.template" "20200101000000" "new" true
      ⟨false, false, false, false⟩).final "w/weewx.conf"
      = fsread [("w/weewx.conf", "old")] "w/weewx.conf" :=
  (c7_dry_run_frame [("w/weewx.conf", "old")] "tmp/cfg" "w/weewx.conf"
    "w/weewx.conf.template" "20200101000000" "new" ⟨false, false, false, false⟩).2.1
    "w/weewx.conf" (by decide)

theorem not_under_of_base {base s q : String} (hpref : base.data <+: s.data)
    (hq : strStartsWith q base = false) : q ≠ s ∧ strStartsWith q (s ++ "/") = false := by
  constructor
  · intro hc
    rw [hc] at hq
    rw [strStartsWith_iff.mpr hpref] at hq
    cases hq
  · cases hsw : strStartsWith q (s ++ "/") with
    | false => rfl
    | true =>
      exfalso
      have h2 := strStartsWith_iff.mp hsw
      have h3 : s.data <+: (s ++ "/").data := by
        rw [String.data_append]
        exact List.prefix_append _ _
      have h4 : base.data <+: q.data := hpref.trans (h3.trans h2)
      rw [strStartsWith_iff.mpr h4] at hq
      cases hq

/-- Claim C5: backup-before-move ordering and fatality.  In a non-dry-run
invocation of update_and_install_config with a successful serialization
step: a backup path is produced exactly when a file already existed at the
final destination; when one is produced, at the state right after the
backup step the destination is empty while the backup path already holds
the old configuration, the destination only acquires the new content at a
strictly later state, and the backup persists from its creation onward;
and when creating the backup fails, the run aborts exceptionally before
the destructive copy, with the pre-existing destination file unchanged and
no backup recorded. -/
theorem c5_backup_before_replace (fs0 : FS) (tmpfn ip tp ts content c₀ : String) (orc : Oracle)
    (hnp : normpath ip = ip)
    (htmp1 : tmpfn ≠ ip) (htmp2 : strStartsWith tmpfn (ip ++ "/") = false)
    (htmp3 : strStartsWith tmpfn (ip ++ "." ++ ts) = false)
    (htp3 : strStartsWith tp (ip ++ "." ++ ts) = false)
    (hw : orc.writeFails = false) :
    (orc.backupFails = false →
      (update_and_install_lower fs0 tmpfn ip tp ts content false orc).backupPath.isSome
        = pexists fs0 ip) ∧
    (orc.backupFails = false → orc.copyFails = false → fsread fs0 ip = some c₀ →
      ∃ bp, (update_and_install_lower fs0 tmpfn ip tp ts content false orc).backupPath
          = some bp ∧
        ∃ si sj,
          (update_and_install_lower fs0 tmpfn ip tp ts content false orc).states[2]?
              = some si ∧
          (update_and_install_lower fs0 tmpfn ip tp ts content false orc).states[3]?
              = some sj ∧
          fsread si ip = none ∧ fsread si bp = some c₀ ∧ fsread sj ip = some content ∧
          ∀ sk ∈ (update_and_install_lower fs0 tmpfn ip tp ts content false orc).states.drop 2,
            fsread sk bp = some c₀) ∧
    (orc.backupFails = true → pexists fs0 ip = true →
      (update_and_install_lower fs0 tmpfn ip tp ts content false orc).ok = false ∧
      fsread (update_and_install_lower fs0 tmpfn ip tp ts content false orc).final ip
        = fsread fs0 ip ∧
      (update_and_install_lower fs0 tmpfn ip tp ts content false orc).backupPath = none) := by
  have hip_ne_tmp : ip ≠ tmpfn := fun hc => htmp1 hc.symm
  have hpex2 : pexists (fswrite (fswrite fs0 tmpfn "") tmpfn content) ip = pexists fs0 ip := by
    rw [pexists_fswrite_ne _ content htmp1 htmp2, pexists_fswrite_ne _ "" htmp1 htmp2]
  refine ⟨?_, ?_, ?_⟩
  · intro hb
    cases hfs0 : pexists fs0 ip with
    | true =>
      have hex : pexists (fswrite (fswrite fs0 tmpfn "") tmpfn content) ip = true := by
        rw [hpex2, hfs0]
      have hsrc : pexists (fswrite (fswrite fs0 tmpfn "") tmpfn content) (normpath ip) = true := by
        rw [hnp]
        exact hex
      cases hcf : orc.copyFails with
      | false => simp [update_and_install_lower, hw, hb, hcf, hex, mwts_eq_some hsrc]
      | true => simp [update_and_install_lower, hw, hb, hcf, hex, mwts_eq_some hsrc]
    | false =>
      have hex : pexists (fswrite (fswrite fs0 tmpfn "") tmpfn content) ip = false := by
        rw [hpex2, hfs0]
      cases hcf : orc.copyFails with
      | false => simp [update_and_install_lower, hw, hb, hcf, hex]
      | true => simp [update_and_install_lower, hw, hb, hcf, hex]
  · intro hb hcf hold
    set fs1 := fswrite fs0 tmpfn "" with hfs1
    set fs2 := fswrite fs1 tmpfn content with hfs2
    have hr2 : fsread fs2 ip = some c₀ := by
      rw [hfs2, hfs1, fsread_fswrite_ne _ content hip_ne_tmp, fsread_fswrite_ne _ "" hip_ne_tmp]
      exact hold
    have hex : pexists fs2 ip = true := pexists_of_read hr2
    have hsrc : pexists fs2 (normpath ip) = true := by
      rw [hnp]
      exact hex
    set bp := backupName fs2 ts ip with hbp
    set fs3 := moveTree fs2 ip bp with hfs3
    have hfreshbp : pexists fs2 bp = false := pexists_backupName fs2 ts ip
    have hbpne_ip : bp ≠ ip := by
      have h2 := backupName_ne_normpath fs2 ts ip
      rw [hnp] at h2
      exact h2
    have hip_not_under : strStartsWith ip (bp ++ "/") = false := by
      have h2 := normpath_not_under_backupName fs2 ts ip
      rw [hnp] at h2
      exact h2
    have hbase_pref : (ip ++ "." ++ ts).data <+: bp.data := by
      have h2 := base_prefix_backupName fs2 ts ip
      rw [hnp] at h2
      exact h2
    obtain ⟨htmp_ne_bp, htmp_not_under⟩ := not_under_of_base hbase_pref htmp3
    obtain ⟨htp_ne_bp, htp_not_under⟩ := not_under_of_base hbase_pref htp3
    have htr : fsread fs3 tmpfn = some content := by
      rw [hfs3, fsread_moveTree_unrel fs2 htmp1 htmp2 htmp_ne_bp htmp_not_under,
        hfs2, fsread_fswrite_self]
    have hr3bp : fsread fs3 bp = some c₀ := by
      rw [hfs3, fsread_moveTree_dst fs2 hfreshbp]
      exact hr2
    have hr3ip : fsread fs3 ip = none := by
      rw [hfs3]
      exact fsread_moveTree_src_none fs2 hbpne_ip hip_not_under
    set fs4 := fswrite fs3 ip content with hfs4
    have hr4ip : fsread fs4 ip = some content := by
      rw [hfs4]
      exact fsread_fswrite_self fs3 ip content
    have hr4bp : fsread fs4 bp = some c₀ := by
      rw [hfs4, fsread_fswrite_ne _ content hbpne_ip]
      exact hr3bp
    set fs5 := (if orc.unlinkTemplateFails then fs4 else fsremove fs4 tp) with hfs5
    have hr5bp : fsread fs5 bp = some c₀ := by
      rw [hfs5]
      cases orc.unlinkTemplateFails with
      | true =>
        simp only [if_true]
        exact hr4bp
      | false =>
        simp only [Bool.false_eq_true, if_false]
        rw [fsread_fsremove_ne _ (fun hc => htp_ne_bp hc.symm)]
        exact hr4bp
    have hr6bp : fsread (fsremove fs5 tmpfn) bp = some c₀ := by
      rw [fsread_fsremove_ne _ (fun hc => htmp_ne_bp hc.symm)]
      exact hr5bp
    have hredfull : update_and_install_lower fs0 tmpfn ip tp ts content false orc
        = ⟨true, some bp, [fs1, fs2, fs3, fs4, fs5, fsremove fs5 tmpfn],
            fsremove fs5 tmpfn⟩ := by
      simp [update_and_install_lower, hw, hb, hcf, hex, mwts_eq_some hsrc, hnp, htr, hfs1,
        hfs2, hbp, hfs3, hfs4, hfs5]
    rw [hredfull]
    refine ⟨bp, rfl, fs3, fs4, rfl, rfl, hr3ip, hr3bp, hr4ip, ?_⟩
    intro sk hsk
    have hsk2 : sk = fs3 ∨ sk = fs4 ∨ sk = fs5 ∨ sk = fsremove fs5 tmpfn := by
      simpa using hsk
    rcases hsk2 with h | h | h | h
    · rw [h]
      exact hr3bp
    · rw [h]
      exact hr4bp
    · rw [h]
      exact hr5bp
    · rw [h]
      exact hr6bp
  · intro hbt hfs0
    have hex : pexists (fswrite (fswrite fs0 tmpfn "") tmpfn content) ip = true := by
      rw [hpex2, hfs0]
    have hred : update_and_install_lower fs0 tmpfn ip tp ts content false orc
        = ⟨false, none,
            [fswrite fs0 tmpfn "", fswrite (fswrite fs0 tmpfn "") tmpfn content,
              fsremove (fswrite (fswrite fs0 tmpfn "") tmpfn content) tmpfn],
            fsremove (fswrite (fswrite fs0 tmpfn "") tmpfn content) tmpfn⟩ := by
      simp [update_and_install_lower, hw, hbt, hex]
    rw [hred]
    refine ⟨rfl, ?_, rfl⟩
    rw [fsread_fsremove_ne _ hip_ne_tmp, fsread_fswrite_ne _ content hip_ne_tmp,
      fsread_fswrite_ne _ "" hip_ne_tmp]

/-- Witness for claim C5: on a concrete filesystem with a pre-existing
configuration and an all-success oracle, a backup path is recorded exactly
because the destination existed. -/
theorem c5_backup_witness :
    (update_and_install_lower [("w/weewx.conf", "old"), ("w/weewx.conf.template", "tpl")]
        "tmp/cfg" "w/weewx.conf" "w/weewx.conf.template" "20200101000000" "new" false
        ⟨false, false, false, false⟩).backupPath.isSome
      = pexists [("w/weewx.conf", "old"), ("w/weewx.conf.template", "tpl")] "w/weewx.conf" :=
  (c5_backup_before_replace [("w/weewx.conf", "old"), ("w/weewx.conf.template", "tpl")]
    "tmp/cfg" "w/weewx.conf" "w/weewx.conf.template" "20200101000000" "new" "old"
    ⟨false, false, false, false⟩ (by decide) (by decide) (by decide) (by decide) (by decide)
    rfl).1 rfl

/-- Claim C4 counterexample: the install step is not an atomic move that
never leaves the destination without a config.  On a concrete non-dry run
with a pre-existing configuration and an all-success oracle, the
destination path exists beforehand, the run succeeds, and yet some
intermediate state of the run has nothing at the destination path (the
window between the backup move and the completion of the copy). -/
theorem c4_counterexample :
    pexists [("w/weewx.conf", "old"), ("w/weewx.conf.template", "tpl")] "w/weewx.conf" = true ∧
    (update_and_install_lower [("w/weewx.conf", "old"), ("w/weewx.conf.template", "tpl")]
        "tmp/cfg" "w/weewx.conf" "w/weewx.conf.template" "20200101000000" "new" false
        ⟨false, false, false, false⟩).ok = true ∧
    (update_and_install_lower [("w/weewx.conf", "old"), ("w/weewx.conf.template", "tpl")]
        "tmp/cfg" "w/weewx.conf" "w/weewx.conf.template" "20200101000000" "new" false
        ⟨false, false, false, false⟩).states.any
      (fun s => !(pexists s "w/weewx.conf")) = true := by
  refine ⟨by decide, by decide, by decide⟩

/-- Claim C4 (amended): if not a dry run, the orchestrator installs the
merged configuration by copying the temporary file onto the final
destination path (not by an atomic rename: the temporary file keeps
existing until the finally-block cleanup), then best-effort deletes the
superseded template, with a deletion failure non-fatal; the destination is
briefly without any config between the backup move and the completion of
the copy, but at every intermediate point the old configuration remains
readable at the destination or at the recorded backup path. -/
theorem c4_amended_copy_install (fs0 : FS) (tmpfn ip tp ts content c₀ : String) (orc : Oracle)
    (hnp : normpath ip = ip)
    (htmp1 : tmpfn ≠ ip) (htmp2 : strStartsWith tmpfn (ip ++ "/") = false)
    (htmp3 : strStartsWith tmpfn (ip ++ "." ++ ts) = false)
    (htp1 : tp ≠ ip)
    (htp3 : strStartsWith tp (ip ++ "." ++ ts) = false)
    (hw : orc.writeFails = false) (hb : orc.backupFails = false) (hc : orc.copyFails = false)
    (hold : fsread fs0 ip = some c₀) :
    (update_and_install_lower fs0 tmpfn ip tp ts content false orc).ok = true ∧
    fsread (update_and_install_lower fs0 tmpfn ip tp ts content false orc).final ip
      = some content ∧
    fsread (update_and_install_lower fs0 tmpfn ip tp ts content false orc).final tmpfn
      = none ∧
    ∃ bp, (update_and_install_lower fs0 tmpfn ip tp ts content false orc).backupPath
        = some bp ∧
      ∀ s ∈ (update_and_install_lower fs0 tmpfn ip tp ts content false orc).states,
        fsread s ip = some c₀ ∨ fsread s ip = some content ∨ fsread s bp = some c₀ := by
  have hip_ne_tmp : ip ≠ tmpfn := fun hcc => htmp1 hcc.symm
  set fs1 := fswrite fs0 tmpfn "" with hfs1
  set fs2 := fswrite fs1 tmpfn content with hfs2
  have hr1 : fsread fs1 ip = some c₀ := by
    rw [hfs1, fsread_fswrite_ne _ "" hip_ne_tmp]
    exact hold
  have hr2 : fsread fs2 ip = some c₀ := by
    rw [hfs2, fsread_fswrite_ne _ content hip_ne_tmp]
    exact hr1
  have hex : pexists fs2 ip = true := pexists_of_read hr2
  have hsrc : pexists fs2 (normpath ip) = true := by
    rw [hnp]
    exact hex
  set bp := backupName fs2 ts ip with hbp
  set fs3 := moveTree fs2 ip bp with hfs3
  have hfreshbp : pexists fs2 bp = false := pexists_backupName fs2 ts ip
  have hbpne_ip : bp ≠ ip := by
    have h2 := backupName_ne_normpath fs2 ts ip
    rw [hnp] at h2
    exact h2
  have hbase_pref : (ip ++ "." ++ ts).data <+: bp.data := by
    have h2 := base_prefix_backupName fs2 ts ip
    rw [hnp] at h2
    exact h2
  obtain ⟨htmp_ne_bp, htmp_not_under⟩ := not_under_of_base hbase_pref htmp3
  obtain ⟨htp_ne_bp, htp_not_under⟩ := not_under_of_base hbase_pref htp3
  have htr : fsread fs3 tmpfn = some content := by
    rw [hfs3, fsread_moveTree_unrel fs2 htmp1 htmp2 htmp_ne_bp htmp_not_under,
      hfs2, fsread_fswrite_self]
  have hr3bp : fsread fs3 bp = some c₀ := by
    rw [hfs3, fsread_moveTree_dst fs2 hfreshbp]
    exact hr2
  set fs4 := fswrite fs3 ip content with hfs4
  have hr4ip : fsread fs4 ip = some content := by
    rw [hfs4]
    exact fsread_fswrite_self fs3 ip content
  have hr4bp : fsread fs4 bp = some c₀ := by
    rw [hfs4, fsread_fswrite_ne _ content hbpne_ip]
    exact hr3bp
  set fs5 := (if orc.unlinkTemplateFails then fs4 else fsremove fs4 tp) with hfs5
  have hr5ip : fsread fs5 ip = some content := by
    rw [hfs5]
    cases orc.unlinkTemplateFails with
    | true =>
      simp only [if_true]
      exact hr4ip
    | false =>
      simp only [Bool.false_eq_true, if_false]
      rw [fsread_fsremove_ne _ (fun hcc => htp1 hcc.symm)]
      exact hr4ip
  have hr5bp : fsread fs5 bp = some c₀ := by
    rw [hfs5]
    cases orc.unlinkTemplateFails with
    | true =>
      simp only [if_true]
      exact hr4bp
    | false =>
      simp only [Bool.false_eq_true, if_false]
      rw [fsread_fsremove_ne _ (fun hcc => htp_ne_bp hcc.symm)]
      exact hr4bp
  have hr6ip : fsread (fsremove fs5 tmpfn) ip = some content := by
    rw [fsread_fsremove_ne _ hip_ne_tmp]
    exact hr5ip
  have hr6bp : fsread (fsremove fs5 tmpfn) bp = some c₀ := by
    rw [fsread_fsremove_ne _ (fun hcc => htmp_ne_bp hcc.symm)]
    exact hr5bp
  have hredfull : update_and_install_lower fs0 tmpfn ip tp ts content false orc
      = ⟨true, some bp, [fs1, fs2, fs3, fs4, fs5, fsremove fs5 tmpfn],
          fsremove fs5 tmpfn⟩ := by
    simp [update_and_install_lower, hw, hb, hc, hex, mwts_eq_some hsrc, hnp, htr, hfs1,
      hfs2, hbp, hfs3, hfs4, hfs5]
  rw [hredfull]
  refine ⟨rfl, hr6ip, fsread_fsremove_self _ _, bp, rfl, ?_⟩
  intro s hs
  have hs2 : s = fs1 ∨ s = fs2 ∨ s = fs3 ∨ s = fs4 ∨ s = fs5 ∨ s = fsremove fs5 tmpfn := by
    simpa using hs
  rcases hs2 with h | h | h | h | h | h
  · rw [h]
    exact Or.inl hr1
  · rw [h]
    exact Or.inl hr2
  · rw [h]
    exact Or.inr (Or.inr hr3bp)
  · rw [h]
    exact Or.inr (Or.inl hr4ip)
  · rw [h]
    exact Or.inr (Or.inl hr5ip)
  · rw [h]
    exact Or.inr (Or.inl hr6ip)

/-- Witness for the amended claim C4: on a concrete run, the install
succeeds and the destination ends up holding the new configuration. -/
theorem c4_amended_witness :
    (update_and_install_lower [("w/weewx.conf", "old"), ("w/weewx.conf.template", "tpl")]
        "tmp/cfg" "w/weewx.conf" "w/weewx.conf.template" "20200101000000" "new" false
        ⟨false, false, false, false⟩).ok = true ∧
    fsread (update_and_install_lower [("w/weewx.conf", "old"), ("w/weewx.conf.template", "tpl")]
        "tmp/cfg" "w/weewx.conf" "w/weewx.conf.template" "20200101000000" "new" false
        ⟨false, false, false, false⟩).final "w/weewx.conf" = some "new" := by
  have h := c4_amended_copy_install [("w/weewx.conf", "old"), ("w/weewx.conf.template", "tpl")]
    "tmp/cfg" "w/weewx.conf" "w/weewx.conf.template" "20200101000000" "new" "old"
    ⟨false, false, false, false⟩ (by decide) (by decide) (by decide) (by decide) (by decide)
    (by decide) rfl rfl rfl (by decide)
  exact ⟨h.1, h.2.1⟩

theorem skins_prefix_of_skin_name {d name : String}
    (h : strStartsWith d ("skins/" ++ name) = true) : strStartsWith d "skins" = true := by
  rw [strStartsWith_iff] at h
  rw [strStartsWith_iff]
  refine List.IsPrefix.trans ?_ h
  have h2 : ("skins/" ++ name).data = (("skins/" : String)).data ++ name.data :=
    String.data_append _ _
  rw [h2]
  have h3 : (("skins" : String)).data <+: (("skins/" : String)).data := by decide
  exact h3.trans (List.prefix_append _ _)

theorem mem_skins_foldl (ex : String → Bool) (root : String) (m : List DataFileGroup)
    (names : List String) (acc : List DataFileGroup) (d : DataFileGroup) :
    (d ∈ names.foldl (fun acc skin_name =>
      if !(ex (root ++ "/" ++ ("skins/" ++ skin_name))) then
        acc ++ m.filter (fun dat => strStartsWith dat.dir ("skins/" ++ skin_name))
      else acc) acc) ↔
    (d ∈ acc ∨ ∃ name ∈ names, ex (root ++ "/" ++ ("skins/" ++ name)) = false ∧
      d ∈ m ∧ strStartsWith d.dir ("skins/" ++ name) = true) := by
  induction names generalizing acc with
  | nil => simp
  | cons nm rest ih =>
    rw [List.foldl_cons]
    cases hex : ex (root ++ "/" ++ ("skins/" ++ nm)) with
    | false =>
      rw [if_pos (by simp [hex])]
      rw [ih]
      constructor
      · rintro (h | ⟨name, hmem, hex2, hdm, hpref⟩)
        · rcases List.mem_append.mp h with h2 | h2
          · exact Or.inl h2
          · have h3 := List.mem_filter.mp h2
            exact Or.inr ⟨nm, List.mem_cons_self nm rest, hex, h3.1, h3.2⟩
        · exact Or.inr ⟨name, List.mem_cons_of_mem nm hmem, hex2, hdm, hpref⟩
      · rintro (h | ⟨name, hmem, hex2, hdm, hpref⟩)
        · exact Or.inl (List.mem_append_left _ h)
        · rcases List.mem_cons.mp hmem with hname | hname
          · subst hname
            exact Or.inl (List.mem_append_right _ (List.mem_filter.mpr ⟨hdm, hpref⟩))
          · exact Or.inr ⟨name, hname, hex2, hdm, hpref⟩
    | true =>
      rw [if_neg (by simp [hex])]
      rw [ih]
      constructor
      · rintro (h | ⟨name, hmem, hex2, hdm, hpref⟩)
        · exact Or.inl h
        · exact Or.inr ⟨name, List.mem_cons_of_mem nm hmem, hex2, hdm, hpref⟩
      · rintro (h | ⟨name, hmem, hex2, hdm, hpref⟩)
        · exact Or.inl h
        · rcases List.mem_cons.mp hmem with hname | hname
          · subst hname
            rw [hex] at hex2
            cases hex2
          · exact Or.inr ⟨name, hname, hex2, hdm, hpref⟩

/-- Claim C1 counterexample: the filter of weewx_install_data.run does not
implement the spec contract for arbitrary manifests.  With a destination
whose skins directory exists and a manifest carrying the skin group Foo
(whose destination directory does not exist), the spec contract retains
the Foo entries while the code drops every skins entry not named by one of
its six hard-coded skin names. -/
theorem c1_filter_counterexample :
    filter_data_files (fun p => p == "root/skins") "root" [⟨"skins/Foo", ["f"]⟩]
      ≠ claim_filter (fun p => p == "root/skins") "root" [⟨"skins/Foo", ["f"]⟩] := by
  decide

/-- Claim C1 (amended): when the destination has no skins directory the
manifest passes through unchanged; when it does, entries outside the skins
category pass through, and an entry under the skins category is retained
exactly when its path starts with skins/(name) for one of the six
hard-coded skin names whose directory is still absent at the destination
(so skins entries with unrecognized group names are always dropped). -/
theorem c1_filter_amended (ex : String → Bool) (root : String) (m : List DataFileGroup)
    (d : DataFileGroup) :
    (ex (root ++ "/" ++ "skins") = false → filter_data_files ex root m = m) ∧
    (ex (root ++ "/" ++ "skins") = true →
      (d ∈ filter_data_files ex root m ↔ d ∈ m ∧ keep_entry ex root d)) := by
  constructor
  · intro h
    simp [filter_data_files, h]
  · intro h
    have hred : filter_data_files ex root m
        = (m.filter (fun dat => !(strStartsWith dat.dir "skins")))
          ++ skin_names.foldl (fun acc skin_name =>
              if !(ex (root ++ "/" ++ ("skins/" ++ skin_name))) then
                acc ++ m.filter (fun dat => strStartsWith dat.dir ("skins/" ++ skin_name))
              else acc) [] := by
      simp [filter_data_files, h]
    rw [hred]
    rw [List.mem_append, mem_skins_foldl]
    simp only [List.mem_filter, List.not_mem_nil, false_or]
    unfold keep_entry
    cases hb : strStartsWith d.dir "skins" with
    | false =>
      constructor
      · rintro (⟨hdm, _⟩ | ⟨name, _, _, hdm, hpref⟩)
        · exact ⟨hdm, fun hcc => absurd hcc (by simp)⟩
        · exact absurd (skins_prefix_of_skin_name hpref) (by simp [hb])
      · rintro ⟨hdm, _⟩
        exact Or.inl ⟨hdm, rfl⟩
    | true =>
      constructor
      · rintro (⟨_, hcontra⟩ | ⟨name, hmem, hex2, hdm, hpref⟩)
        · simp at hcontra
        · exact ⟨hdm, fun _ => ⟨name, hmem, hpref, hex2⟩⟩
      · rintro ⟨hdm, hkeep⟩
        obtain ⟨name, hmem, hpref, hex2⟩ := hkeep rfl
        exact Or.inr ⟨name, hmem, hex2, hdm, hpref⟩

/-- Witness for the amended claim C1: a manifest entry for the Ftp skin is
retained when the destination has a skins directory but no Ftp skin. -/
theorem c1_filter_witness :
    (⟨"skins/Ftp", ["f"]⟩ : DataFileGroup)
      ∈ filter_data_files (fun p => p == "root/skins") "root" [⟨"skins/Ftp", ["f"]⟩] :=
  ((c1_filter_amended (fun p => p == "root/skins") "root" [⟨"skins/Ftp", ["f"]⟩]
      ⟨"skins/Ftp", ["f"]⟩).2 (by decide)).mpr
    ⟨by decide, fun _ => ⟨"Ftp", by decide, by decide, by decide⟩⟩

/-- Claim C9: asset preservation round-trip.  For a user directory holding
a user file (any name outside the fixed legacy remediation set), running
weewx_install_lib.run with a fresh set of default files (installed by the
superclass into the recreated user directory) leaves the destination
holding both the user file with its content unchanged and any freshly
installed default file that had no counterpart in the snapshot; a user
file with the same relative name as a freshly installed one overwrites
it. -/
theorem c9_asset_round_trip (fs0 : FS) (root ts rname X dname D : String)
    (fresh : List (String × String))
    (hnorm : normpath (userDir root) = userDir root)
    (huser : fsread fs0 (userDir root ++ "/" ++ rname) = some X)
    (hr1 : rname ≠ "schemas.py") (hr2 : strStartsWith rname ("schemas.py" ++ "/") = false)
    (hr3 : rname ≠ "schemas.py.old")
    (hr4 : strStartsWith rname ("schemas.py.old" ++ "/") = false)
    (hr5 : rname ≠ "schemas.pyc")
    (hd1 : dname ≠ "schemas.py") (hd2 : strStartsWith dname ("schemas.py" ++ "/") = false)
    (hd3 : dname ≠ "schemas.py.old")
    (hd4 : strStartsWith dname ("schemas.py.old" ++ "/") = false)
    (hd5 : dname ≠ "schemas.pyc")
    (hmem : (dname, D) ∈ fresh) (hnodup : (fresh.map Prod.fst).Nodup)
    (hnew : pexists fs0 (userDir root ++ "/" ++ dname) = false) :
    fsread (install_lib_run fs0 root ts fresh) (userDir root ++ "/" ++ rname) = some X ∧
    fsread (install_lib_run fs0 root ts fresh) (userDir root ++ "/" ++ dname) = some D := by
  set ud := userDir root with hud
  have hexud : pexists fs0 ud = true := pexists_of_read_join huser
  have hsrc : pexists fs0 (normpath ud) = true := by
    rw [hnorm]
    exact hexud
  set sdir := backupName fs0 ts ud with hsdir
  set fs1 := moveTree fs0 ud sdir with hfs1
  set fs2 := install_fresh fs1 ud fresh with hfs2
  set fs3 := copyTree fs2 sdir ud with hfs3
  have hfresh0 : pexists fs0 sdir = false := pexists_backupName fs0 ts ud
  have hbase : (ud ++ "." ++ ts).data <+: sdir.data := by
    have h2 := base_prefix_backupName fs0 ts ud
    rw [hnorm] at h2
    exact h2
  have hbase_under : ∀ y : String, (ud ++ "." ++ ts).data <+: (sdir ++ "/" ++ y).data :=
    fun y => hbase.trans (prefix_data_join sdir y)
  have hnowrite : ∀ y : String, ∀ e ∈ fresh, ud ++ "/" ++ e.1 ≠ sdir ++ "/" ++ y :=
    fun y e _ => join_ne_of_dotted (hbase_under y)
  have hred : install_lib_run fs0 root ts fresh = legacy_cleanup fs3 ud := by
    simp [install_lib_run, ← hud, hexud, mwts_eq_some hsrc, hnorm, hfs1, hfs2, hfs3, hsdir]
  have hr_snap : fsread fs1 (sdir ++ "/" ++ rname) = some X := by
    rw [hfs1, @fsread_moveTree_join fs0 ud sdir rname hfresh0]
    exact huser
  have hr_snap2 : fsread fs2 (sdir ++ "/" ++ rname) = some X := by
    rw [hfs2, fsread_install_fresh_other fs1 ud fresh _ (hnowrite rname)]
    exact hr_snap
  have hr_back : fsread fs3 (ud ++ "/" ++ rname) = some X := by
    rw [hfs3]
    exact fsread_copyTree_hit fs2 sdir ud rname X hr_snap2
  have hd_snap : fsread fs1 (sdir ++ "/" ++ dname) = none := by
    rw [hfs1, @fsread_moveTree_join fs0 ud sdir dname hfresh0]
    exact fsread_none_of_pexists_false hnew
  have hd_snap2 : fsread fs2 (sdir ++ "/" ++ dname) = none := by
    rw [hfs2, fsread_install_fresh_other fs1 ud fresh _ (hnowrite dname)]
    exact hd_snap
  have hd_fresh : fsread fs2 (ud ++ "/" ++ dname) = some D := by
    rw [hfs2]
    exact fsread_install_fresh_mem fs1 ud fresh dname D hmem hnodup
  have hd_back : fsread fs3 (ud ++ "/" ++ dname) = some D := by
    rw [hfs3, fsread_copyTree_miss fs2 sdir ud dname hd_snap2]
    exact hd_fresh
  rw [hred]
  constructor
  · rw [fsread_legacy_cleanup fs3 ud rname hr1 hr2 hr3 hr4 hr5]
    exact hr_back
  · rw [fsread_legacy_cleanup fs3 ud dname hd1 hd2 hd3 hd4 hd5]
    exact hd_back

/-- Witness for claim C9 on a concrete one-file user directory: after the
run, custom.ext still reads X and the fresh default.ext reads D. -/
theorem c9_asset_round_trip_witness :
    fsread (install_lib_run [("w/bin/user/custom.ext", "X")] "w" "20200101000000"
        [("default.ext", "D")]) (userDir "w" ++ "/" ++ "custom.ext") = some "X" ∧
    fsread (install_lib_run [("w/bin/user/custom.ext", "X")] "w" "20200101000000"
        [("default.ext", "D")]) (userDir "w" ++ "/" ++ "default.ext") = some "D" :=
  c9_asset_round_trip [("w/bin/user/custom.ext", "X")] "w" "20200101000000" "custom.ext" "X"
    "default.ext" "D" [("default.ext", "D")] (by decide) (by decide) (by decide) (by decide)
    (by decide) (by decide) (by decide) (by decide) (by decide) (by decide) (by decide)
    (by decide) (by decide) (by decide) (by decide)
